import Mathlib

/-!
Verification of the multidimensional traversal engine of `lib/algo/loop.h`
(MRtrix): the `LoopAlongSingleAxis`, `LoopAlongAxisRange`,
`LoopAlongStaticAxes` and `LoopAlongDynamicAxes` cursors, their progress
decorators, and the helper functors `set_pos` / `inc_pos`.

The engine walks a tuple of array-like views (`ImageType`s).  A view exposes
its number of axes (`ndim`), per-axis extents (`size`) and a mutable per-axis
position (`index`).  We model a view as a record of total functions on axis
identifiers; a view tuple is a nonempty list, with the first view
(`std::get<0>`) distinguished since the engine reads only its extents.
-/

set_option maxHeartbeats 1000000

/-- An array-like view (`ImageType`): axis count, per-axis extent (`ssize_t
size(axis)`) and per-axis current position (`ssize_t index(axis)`). -/
structure View where
  ndim : Nat
  size : Nat → Int
  index : Nat → Int

/-- A tuple of views, `std::tuple<ImageType&...>`: the distinguished first
view (`std::get<0>`) and the remaining views. -/
abbrev Views := View × List View

/-- `std::get<0>(vox)`: the first (reference) view of the tuple. -/
abbrev get0 (vox : Views) : View := vox.1

/-- The `set_pos` functor: `vox.index(axis) = index`. -/
def set_pos (axis : Nat) (idx : Int) (v : View) : View :=
  { v with index := Function.update v.index axis idx }

/-- The `inc_pos` functor: `++vox.index(axis)`. -/
def inc_pos (axis : Nat) (v : View) : View :=
  { v with index := Function.update v.index axis (v.index axis + 1) }

/-- `apply (f, vox)`: apply a functor to every view of the tuple. -/
def applyAll (f : View → View) (vox : Views) : Views :=
  (f vox.1, vox.2.map f)

/-! ## `LoopAlongSingleAxis` -/

/-- State of `LoopAlongSingleAxis::Run`: the axis, the view tuple, and the
cached extent `size0 = std::get<0>(vox).size(axis)`. -/
structure LoopAlongSingleAxis.Run where
  axis : Nat
  vox : Views
  size0 : Int

/-- Constructor of `LoopAlongSingleAxis::Run`: caches `size0` and applies
`set_pos (axis, 0)` to every view. -/
def LoopAlongSingleAxis.Run.init (axis : Nat) (vox : Views) :
    LoopAlongSingleAxis.Run :=
  { axis := axis
    vox := applyAll (set_pos axis 0) vox
    size0 := (get0 vox).size axis }

/-- `operator bool` of `LoopAlongSingleAxis::Run`:
`std::get<0>(vox).index(axis) < size0`. -/
def LoopAlongSingleAxis.Run.live (r : LoopAlongSingleAxis.Run) : Bool :=
  decide ((get0 r.vox).index r.axis < r.size0)

/-- `operator++` of `LoopAlongSingleAxis::Run`: `apply (inc_pos (axis), vox)`. -/
def LoopAlongSingleAxis.Run.inc (r : LoopAlongSingleAxis.Run) :
    LoopAlongSingleAxis.Run :=
  { r with vox := applyAll (inc_pos r.axis) r.vox }

/-! ## `LoopAlongAxisRange` -/

/-- State of `LoopAlongAxisRange::Run`: resolved axis range `[from, to_)`, the
view tuple, the cached extent of the innermost axis, and the `ok` flag. -/
structure LoopAlongAxisRange.Run where
  from_ : Nat
  to_ : Nat
  vox : Views
  size0 : Int
  ok : Bool

/-- Constructor of `LoopAlongAxisRange::Run`: resolves
`to_ = axis_to ? axis_to : std::get<0>(vox).ndim()`, caches
`size0 = std::get<0>(vox).size(from)`, sets `ok = true` and zeroes every axis
`n` with `from ≤ n < to_` on every view. -/
def LoopAlongAxisRange.Run.init (axis_from axis_to : Nat) (vox : Views) :
    LoopAlongAxisRange.Run :=
  let t := if axis_to = 0 then (get0 vox).ndim else axis_to
  { from_ := axis_from
    to_ := t
    vox := (List.range' axis_from (t - axis_from)).foldl
      (fun w n => applyAll (set_pos n 0) w) vox
    size0 := (get0 vox).size axis_from
    ok := true }

/-- `operator bool` of `LoopAlongAxisRange::Run`: `return ok`. -/
def LoopAlongAxisRange.Run.live (r : LoopAlongAxisRange.Run) : Bool := r.ok

/-- The body of the `while (axis < to_)` carry loop of
`LoopAlongAxisRange::Run::operator++`, recursing on the number `k` of axes
still to try (`k = to_ - axis`): increment `axis` on every view, stop while
within the first view's extent, otherwise zero the axis on every view and
move to the next; returns the updated tuple and `true` for still-live,
`false` for exhausted. -/
def rangeCarryGo : Nat → Nat → Views → Views × Bool
  | 0, _, vox => (vox, false)
  | k + 1, axis, vox =>
    let w := applyAll (inc_pos axis) vox
    if (get0 w).index axis < (get0 w).size axis then (w, true)
    else rangeCarryGo k (axis + 1) (applyAll (set_pos axis 0) w)

/-- The `while (axis < to_)` carry loop of `LoopAlongAxisRange::Run::operator++`:
runs the loop body over the axes `axis, axis+1, …, to_-1`. -/
def rangeCarry (to_ : Nat) (axis : Nat) (vox : Views) : Views × Bool :=
  rangeCarryGo (to_ - axis) axis vox

/-- `operator++` of `LoopAlongAxisRange::Run`: increment the innermost axis on
every view; if within the cached extent, done; otherwise zero it on every view
and run the carry loop over axes `from+1 … to-1`, clearing `ok` on overflow of
the last axis. -/
def LoopAlongAxisRange.Run.inc (r : LoopAlongAxisRange.Run) :
    LoopAlongAxisRange.Run :=
  let w := applyAll (inc_pos r.from_) r.vox
  if (get0 w).index r.from_ < r.size0 then { r with vox := w }
  else
    let w2 := applyAll (set_pos r.from_ 0) w
    let res := rangeCarry r.to_ (r.from_ + 1) w2
    { r with vox := res.1, ok := res.2 }

/-- `LoopAlongAxes`: builds a `LoopAlongAxisRange::Run` over
`[0, std::get<0>(vox).ndim())`. -/
def LoopAlongAxes.run (vox : Views) : LoopAlongAxisRange.Run :=
  LoopAlongAxisRange.Run.init 0 (get0 vox).ndim vox

/-! ## `LoopAlongStaticAxes` -/

/-- State of `LoopAlongStaticAxes::Run`: the axis list, the view tuple,
`from = *axes.begin()`, the cached extent `size0` and the `ok` flag. -/
structure LoopAlongStaticAxes.Run where
  axes : List Nat
  vox : Views
  from_ : Nat
  size0 : Int
  ok : Bool

/-- Constructor of `LoopAlongStaticAxes::Run`: `from = *axes.begin()`,
`size0 = std::get<0>(vox).size(from)`, `ok = true`, and every listed axis is
zeroed on every view.  (An empty list is a precondition violation in the
source — `*axes.begin()` is undefined there; the embedding totalises it with
`headI`.) -/
def LoopAlongStaticAxes.Run.init (axes : List Nat) (vox : Views) :
    LoopAlongStaticAxes.Run :=
  { axes := axes
    vox := axes.foldl (fun w a => applyAll (set_pos a 0) w) vox
    from_ := axes.headI
    size0 := (get0 vox).size axes.headI
    ok := true }

/-- `operator bool` of `LoopAlongStaticAxes::Run`: `return ok`. -/
def LoopAlongStaticAxes.Run.live (r : LoopAlongStaticAxes.Run) : Bool := r.ok

/-- The `while (axis != axes.end())` carry loop of
`LoopAlongStaticAxes::Run::operator++`: increment the axis on every view,
stop while within the first view's extent, otherwise zero it on every view
and continue with the next listed axis. -/
def staticCarry (vox : Views) : List Nat → Views × Bool
  | [] => (vox, false)
  | a :: rest =>
    let w := applyAll (inc_pos a) vox
    if (get0 w).index a < (get0 w).size a then (w, true)
    else staticCarry (applyAll (set_pos a 0) w) rest

/-- `operator++` of `LoopAlongStaticAxes::Run`: increment the first listed
axis on every view; if within the cached extent, done; otherwise zero it on
every view and run the carry loop over the remaining listed axes. -/
def LoopAlongStaticAxes.Run.inc (r : LoopAlongStaticAxes.Run) :
    LoopAlongStaticAxes.Run :=
  let w := applyAll (inc_pos r.from_) r.vox
  if (get0 w).index r.from_ < r.size0 then { r with vox := w }
  else
    let w2 := applyAll (set_pos r.from_ 0) w
    let res := staticCarry w2 r.axes.tail
    { r with vox := res.1, ok := res.2 }

/-! ## `LoopAlongDynamicAxes` -/

/-- State of `LoopAlongDynamicAxes::Run`: the axis vector, the view tuple,
`from = axes[0]`, the cached extent `size0` and the `ok` flag. -/
structure LoopAlongDynamicAxes.Run where
  axes : List Nat
  vox : Views
  from_ : Nat
  size0 : Int
  ok : Bool

/-- Constructor of `LoopAlongDynamicAxes::Run`: identical to the static-axes
constructor (`from = axes[0]`, cache `size0`, set `ok`, zero every listed axis
on every view). -/
def LoopAlongDynamicAxes.Run.init (axes : List Nat) (vox : Views) :
    LoopAlongDynamicAxes.Run :=
  { axes := axes
    vox := axes.foldl (fun w a => applyAll (set_pos a 0) w) vox
    from_ := axes.headI
    size0 := (get0 vox).size axes.headI
    ok := true }

/-- `operator bool` of `LoopAlongDynamicAxes::Run`: `return ok`. -/
def LoopAlongDynamicAxes.Run.live (r : LoopAlongDynamicAxes.Run) : Bool := r.ok

/-- The carry loop of `LoopAlongDynamicAxes::Run::operator++`: at each
iteration it first zeroes the *previous* axis (`set_pos (*(axis-1), 0)`) on
every view, then increments the current axis on every view, stopping while
within the first view's extent.  Unlike the static-axes loop, a rolled-over
axis is zeroed only at the start of the *next* iteration, so the final
overflowed axis is never reset. -/
def dynamicCarry (vox : Views) (prev : Nat) : List Nat → Views × Bool
  | [] => (vox, false)
  | a :: rest =>
    let w := applyAll (inc_pos a) (applyAll (set_pos prev 0) vox)
    if (get0 w).index a < (get0 w).size a then (w, true)
    else dynamicCarry w a rest

/-- `operator++` of `LoopAlongDynamicAxes::Run`: increment `from` on every
view; if within the cached extent, done; otherwise run the carry loop over the
remaining axes with `from` as the initial previous axis (note: `from` is *not*
zeroed before the loop — the loop's first iteration zeroes it). -/
def LoopAlongDynamicAxes.Run.inc (r : LoopAlongDynamicAxes.Run) :
    LoopAlongDynamicAxes.Run :=
  let w := applyAll (inc_pos r.from_) r.vox
  if (get0 w).index r.from_ < r.size0 then { r with vox := w }
  else
    let res := dynamicCarry w r.from_ r.axes.tail
    { r with vox := res.1, ok := res.2 }

/-! ## Progress decorators -/

/-- Modelled from the spec: `MR::voxel_count (vox, from, to_)` is declared in
`image_helpers.h`, which is not part of the inspected source.  Per the spec,
the progress total is "the product of extents of all selected axes (using the
same reference view)", the selected axes of an axis range `[from, to_)` being
`from, …, to-1` with `to_ = 0` resolved to the view's axis count. -/
def voxel_count (v : View) (from_ to_ : Nat) : Int :=
  ((List.range' from_ ((if to_ = 0 then v.ndim else to_) - from_)).map v.size).prod

/-- Modelled from the spec: `MR::voxel_count (vox, axes)` for an explicit axis
list — the product of the reference view's extents over the listed axes. -/
def voxel_count_axes (v : View) (axes : List Nat) : Int :=
  (axes.map v.size).prod

/-- State of `LoopAlongAxisRangeProgress::Run`: the base
`LoopAlongAxisRange::Run` plus the progress bar, modelled from the spec as a
monotone counter with its precomputed total
`voxel_count (std::get<0>(vox), from, to_)`. -/
structure LoopAlongAxisRangeProgress.Run where
  base : LoopAlongAxisRange.Run
  progressCount : Nat
  progressTotal : Int

/-- Constructor of `LoopAlongAxisRangeProgress::Run`: constructs the base run,
then the progress bar with total `voxel_count (std::get<0>(vox), from, to_)`. -/
def LoopAlongAxisRangeProgress.Run.init (axis_from axis_to : Nat)
    (vox : Views) : LoopAlongAxisRangeProgress.Run :=
  { base := LoopAlongAxisRange.Run.init axis_from axis_to vox
    progressCount := 0
    progressTotal := voxel_count (get0 vox) axis_from axis_to }

/-- `operator bool`, inherited from the base run: `return ok`. -/
def LoopAlongAxisRangeProgress.Run.live (r : LoopAlongAxisRangeProgress.Run) :
    Bool := r.base.ok

/-- `operator++` of `LoopAlongAxisRangeProgress::Run`: advance the base run,
then `++progress`. -/
def LoopAlongAxisRangeProgress.Run.inc (r : LoopAlongAxisRangeProgress.Run) :
    LoopAlongAxisRangeProgress.Run :=
  { r with base := r.base.inc, progressCount := r.progressCount + 1 }

/-! ## Iterated runs -/

/-- The state of the single-axis cursor after `n` advances. -/
def singleIter (axis : Nat) (vox : Views) (n : Nat) : LoopAlongSingleAxis.Run :=
  LoopAlongSingleAxis.Run.inc^[n] (LoopAlongSingleAxis.Run.init axis vox)

/-- The state of the axis-range cursor after `n` advances. -/
def rangeIter (axis_from axis_to : Nat) (vox : Views) (n : Nat) :
    LoopAlongAxisRange.Run :=
  LoopAlongAxisRange.Run.inc^[n] (LoopAlongAxisRange.Run.init axis_from axis_to vox)

/-- The state of the static-axes cursor after `n` advances. -/
def statIter (axes : List Nat) (vox : Views) (n : Nat) : LoopAlongStaticAxes.Run :=
  LoopAlongStaticAxes.Run.inc^[n] (LoopAlongStaticAxes.Run.init axes vox)

/-- The state of the dynamic-axes cursor after `n` advances. -/
def dynIter (axes : List Nat) (vox : Views) (n : Nat) : LoopAlongDynamicAxes.Run :=
  LoopAlongDynamicAxes.Run.inc^[n] (LoopAlongDynamicAxes.Run.init axes vox)

/-- The state of the axis-range progress cursor after `n` advances. -/
def rangeProgIter (axis_from axis_to : Nat) (vox : Views) (n : Nat) :
    LoopAlongAxisRangeProgress.Run :=
  LoopAlongAxisRangeProgress.Run.inc^[n]
    (LoopAlongAxisRangeProgress.Run.init axis_from axis_to vox)

/-- The tuple of positions of the listed axes on the first view. -/
def posList (axes : List Nat) (vox : Views) : List Int :=
  axes.map (get0 vox).index

/-- A test view: extents given by a list, all positions initially at the
given default. -/
def mkView (sizes : List Int) (start : Int) : View :=
  { ndim := sizes.length
    size := fun a => sizes.getD a 0
    index := fun _ => start }

/-! ## Observation predicates -/

/-- Axis `c` holds the same position on every view in `vox'` as it did in
`vox` (the two tuples have the same number of views). -/
def UnchangedAt (vox vox' : Views) (c : Nat) : Prop :=
  vox'.1.index c = vox.1.index c ∧
  List.Forall₂ (fun w w' => w'.index c = w.index c) vox.2 vox'.2

/-- Every view of the tuple holds the same position as the first view on
axis `c`. -/
def AgreeOn (vox : Views) (c : Nat) : Prop :=
  ∀ w ∈ vox.2, w.index c = vox.1.index c

/-- The two tuples have an identical first view, and their remaining views
pairwise hold identical positions on every axis (their extents and axis
counts may differ arbitrarily). -/
def SameTraversal (vox vox' : Views) : Prop :=
  vox'.1 = vox.1 ∧ List.Forall₂ (fun w w' => w'.index = w.index) vox.2 vox'.2

/-- `vox'` is reachable from `vox` by a sequence of `set_pos` / `inc_pos`
functor applications touching only axes satisfying `S`. -/
inductive OpsOn (S : Nat → Prop) : Views → Views → Prop
  | refl (vox : Views) : OpsOn S vox vox
  | set (b : Nat) (i : Int) (vox vox' : Views) (hb : S b)
      (h : OpsOn S (applyAll (set_pos b i) vox) vox') : OpsOn S vox vox'
  | inc (b : Nat) (vox vox' : Views) (hb : S b)
      (h : OpsOn S (applyAll (inc_pos b) vox) vox') : OpsOn S vox vox'

/-! ## Abstract odometer -/

/-- The digit tuple of `n` in the mixed-radix system given by the extents
`es`, least-significant (innermost) digit first. -/
def natDigits : List Nat → Nat → List Nat
  | [], _ => []
  | e :: es, n => n % e :: natDigits es (n / e)

/-- One odometer increment over a list of (current digit, extent) pairs:
increment the first digit; on overflow zero it and carry into the rest;
`none` when the carry runs off the end (exhaustion). -/
def odoInc : List (Nat × Nat) → Option (List Nat)
  | [] => none
  | (d, e) :: rest =>
    if d + 1 < e then some ((d + 1) :: rest.map Prod.fst)
    else (odoInc rest).map (fun ds => 0 :: ds)

/-- Pair up digits with their extents, positionally. -/
def zipPair : List Nat → List Nat → List (Nat × Nat)
  | a :: as, b :: bs => (a, b) :: zipPair as bs
  | _, _ => []

/-- The position-tuple sequence of literal nested loops over the given
extents, first extent innermost (fastest-varying). -/
def nestedLoops : List Nat → List (List Nat)
  | [] => [[]]
  | e :: es => (nestedLoops es).flatMap (fun outer => (List.range e).map (fun i => i :: outer))

/-- The sequence of position tuples (restricted to the selected axes, read
off the first view) observed at the Live liveness checks of the first `n`
steps of the static-axes cursor. -/
def statVisited (axes : List Nat) (vox : Views) (n : Nat) : List (List Int) :=
  (List.range n).map (fun k => posList axes (statIter axes vox k).vox)


/-- `operator bool` of `LoopAlongAxisRange::Run` viewed as a state transaction:
the method is `const` and reads only `ok`, so it yields the flag and leaves the
state untouched. -/
def LoopAlongAxisRange.Run.observe (r : LoopAlongAxisRange.Run) :
    Bool × LoopAlongAxisRange.Run := (r.ok, r)

/-- `operator bool` of `LoopAlongSingleAxis::Run` viewed as a state
transaction: the method is `const` and reads only the first view's position
and the cached extent. -/
def LoopAlongSingleAxis.Run.observe (r : LoopAlongSingleAxis.Run) :
    Bool × LoopAlongSingleAxis.Run :=
  (decide ((get0 r.vox).index r.axis < r.size0), r)

/-- `operator bool` of `LoopAlongStaticAxes::Run` viewed as a state
transaction. -/
def LoopAlongStaticAxes.Run.observe (r : LoopAlongStaticAxes.Run) :
    Bool × LoopAlongStaticAxes.Run := (r.ok, r)

/-- `operator bool` of `LoopAlongDynamicAxes::Run` viewed as a state
transaction. -/
def LoopAlongDynamicAxes.Run.observe (r : LoopAlongDynamicAxes.Run) :
    Bool × LoopAlongDynamicAxes.Run := (r.ok, r)

/-- The inherited `operator bool` of `LoopAlongAxisRangeProgress::Run` viewed
as a state transaction: it reads only the base run's `ok` flag and touches
neither the views nor the progress state. -/
def LoopAlongAxisRangeProgress.Run.observe (r : LoopAlongAxisRangeProgress.Run) :
    Bool × LoopAlongAxisRangeProgress.Run := (r.base.ok, r)

/-- The resolved upper bound of an axis range: `axis_to ? axis_to :
std::get<0>(vox).ndim()`. -/
def resolveTo (axis_to : Nat) (vox : Views) : Nat :=
  if axis_to = 0 then (get0 vox).ndim else axis_to

/-- The selected axis order of an axis-range request `[from, to)`:
`[from, from+1, …, to-1]` after resolving `to = 0`. -/
def rangeAxes (axis_from axis_to : Nat) (vox : Views) : List Nat :=
  List.range' axis_from (resolveTo axis_to vox - axis_from)

/-- The position-tuple sequence observed at the Live liveness checks of the
first `n` steps of the dynamic-axes cursor. -/
def dynVisited (axes : List Nat) (vox : Views) (n : Nat) : List (List Int) :=
  (List.range n).map (fun k => posList axes (dynIter axes vox k).vox)

/-- A 2×3 test image pair (two synchronized views). -/
def exVox : Views := (mkView [2, 3] 0, [mkView [2, 3] 0])

/-- A single view of one axis with extent 0. -/
def z0Vox : Views := (mkView [0] 0, [])

/-- A single 4×5 view (progress example). -/
def pVox : Views := (mkView [4, 5] 0, [])

/-- A mismatched pair: extent 2 on the first view, extent 1 on the second. -/
def mmVox : Views := (mkView [2] 0, [mkView [1] 0])

/-- The extents of the selected axes, read off the first view, as naturals. -/
def extentsOf (axes : List Nat) (vox : Views) : List Nat :=
  axes.map (fun a => (vox.1.size a).toNat)

/-! ## Basic lemmas about the functors -/

theorem get0_applyAll (f : View → View) (vox : Views) :
    get0 (applyAll f vox) = f (get0 vox) := rfl

theorem set_pos_index (b : Nat) (i : Int) (v : View) (c : Nat) :
    (set_pos b i v).index c = if c = b then i else v.index c :=
  Function.update_apply v.index b i c

theorem inc_pos_index (b : Nat) (v : View) (c : Nat) :
    (inc_pos b v).index c = if c = b then v.index c + 1 else v.index c := by
  by_cases h : c = b
  · subst h; simp [inc_pos]
  · simp [inc_pos, Function.update_noteq h, h]

theorem set_pos_index_self (b : Nat) (i : Int) (v : View) :
    (set_pos b i v).index b = i := by
  simp [set_pos_index]

theorem inc_pos_index_self (b : Nat) (v : View) :
    (inc_pos b v).index b = v.index b + 1 := by
  simp [inc_pos_index]

theorem set_pos_index_ne (b : Nat) (i : Int) (v : View) (c : Nat) (h : c ≠ b) :
    (set_pos b i v).index c = v.index c := by
  simp [set_pos_index, h]

theorem inc_pos_index_ne (b : Nat) (v : View) (c : Nat) (h : c ≠ b) :
    (inc_pos b v).index c = v.index c := by
  simp [inc_pos_index, h]

theorem set_pos_size (b : Nat) (i : Int) (v : View) :
    (set_pos b i v).size = v.size := rfl

theorem inc_pos_size (b : Nat) (v : View) :
    (inc_pos b v).size = v.size := rfl

theorem set_pos_index_congr (b : Nat) (i : Int) (v w : View)
    (h : w.index = v.index) : (set_pos b i w).index = (set_pos b i v).index := by
  simp [set_pos, h]

theorem inc_pos_index_congr (b : Nat) (v w : View)
    (h : w.index = v.index) : (inc_pos b w).index = (inc_pos b v).index := by
  simp [inc_pos, h]

/-- Build a `Forall₂` between a list and its image under a map. -/
theorem forall₂_self_map {R : View → View → Prop} {l : List View} (f : View → View)
    (h : ∀ w ∈ l, R w (f w)) : List.Forall₂ R l (l.map f) := by
  induction l with
  | nil => exact List.Forall₂.nil
  | cons a t ih =>
      exact List.Forall₂.cons (h a (by simp)) (ih fun w hw => h w (by simp [hw]))

/-! ## `UnchangedAt` -/

theorem unchangedAt_refl (vox : Views) (c : Nat) : UnchangedAt vox vox c :=
  ⟨rfl, List.forall₂_same.2 (fun _ _ => rfl)⟩

theorem forall₂_index_trans {c : Nat} {l₁ l₂ l₃ : List View}
    (h₁ : List.Forall₂ (fun w w' => w'.index c = w.index c) l₁ l₂)
    (h₂ : List.Forall₂ (fun w w' => w'.index c = w.index c) l₂ l₃) :
    List.Forall₂ (fun w w' => w'.index c = w.index c) l₁ l₃ := by
  induction h₁ generalizing l₃ with
  | nil => cases h₂; exact List.Forall₂.nil
  | cons h t ih =>
      cases h₂ with
      | cons h' t' => exact List.Forall₂.cons (h'.trans h) (ih t')

theorem unchangedAt_trans {vox₁ vox₂ vox₃ : Views} {c : Nat}
    (h₁ : UnchangedAt vox₁ vox₂ c) (h₂ : UnchangedAt vox₂ vox₃ c) :
    UnchangedAt vox₁ vox₃ c :=
  ⟨h₂.1.trans h₁.1, forall₂_index_trans h₁.2 h₂.2⟩

theorem unchangedAt_applyAll_set {b : Nat} {i : Int} {c : Nat} (h : c ≠ b)
    (vox : Views) : UnchangedAt vox (applyAll (set_pos b i) vox) c := by
  refine ⟨set_pos_index_ne b i _ c h, ?_⟩
  exact forall₂_self_map _ (fun w _ => set_pos_index_ne b i w c h)

theorem unchangedAt_applyAll_inc {b : Nat} {c : Nat} (h : c ≠ b)
    (vox : Views) : UnchangedAt vox (applyAll (inc_pos b) vox) c := by
  refine ⟨inc_pos_index_ne b _ c h, ?_⟩
  exact forall₂_self_map _ (fun w _ => inc_pos_index_ne b w c h)

theorem OpsOn.unchanged {S : Nat → Prop} {vox vox' : Views}
    (h : OpsOn S vox vox') (c : Nat) (hc : ¬ S c) : UnchangedAt vox vox' c := by
  induction h with
  | refl => exact unchangedAt_refl _ _
  | set b i vox vox' hb _ ih =>
      have hcb : c ≠ b := fun e => hc (by rw [e]; exact hb)
      exact unchangedAt_trans (unchangedAt_applyAll_set hcb vox) ih
  | inc b vox vox' hb _ ih =>
      have hcb : c ≠ b := fun e => hc (by rw [e]; exact hb)
      exact unchangedAt_trans (unchangedAt_applyAll_inc hcb vox) ih

theorem OpsOn.trans {S : Nat → Prop} {vox₁ vox₂ vox₃ : Views}
    (h₁ : OpsOn S vox₁ vox₂) (h₂ : OpsOn S vox₂ vox₃) : OpsOn S vox₁ vox₃ := by
  induction h₁ with
  | refl => exact h₂
  | set b i vox vox' hb _ ih => exact OpsOn.set b i _ _ hb (ih h₂)
  | inc b vox vox' hb _ ih => exact OpsOn.inc b _ _ hb (ih h₂)

theorem OpsOn.mono {S T : Nat → Prop} {vox vox' : Views}
    (hST : ∀ c, S c → T c) (h : OpsOn S vox vox') : OpsOn T vox vox' := by
  induction h with
  | refl => exact OpsOn.refl _
  | set b i vox vox' hb _ ih => exact OpsOn.set b i _ _ (hST b hb) ih
  | inc b vox vox' hb _ ih => exact OpsOn.inc b _ _ (hST b hb) ih

theorem OpsOn.get0_size {S : Nat → Prop} {vox vox' : Views}
    (h : OpsOn S vox vox') : (get0 vox').size = (get0 vox).size := by
  induction h with
  | refl => rfl
  | set b i vox vox' hb _ ih => exact ih
  | inc b vox vox' hb _ ih => exact ih

theorem OpsOn.get0_ndim {S : Nat → Prop} {vox vox' : Views}
    (h : OpsOn S vox vox') : (get0 vox').ndim = (get0 vox).ndim := by
  induction h with
  | refl => rfl
  | set b i vox vox' hb _ ih => exact ih
  | inc b vox vox' hb _ ih => exact ih

/-! ## `AgreeOn` -/

theorem agreeOn_applyAll_set {b : Nat} {i : Int} {c : Nat} {vox : Views}
    (h : AgreeOn vox c) : AgreeOn (applyAll (set_pos b i) vox) c := by
  intro w hw
  obtain ⟨u, hu, rfl⟩ := List.mem_map.1 hw
  show (set_pos b i u).index c = (set_pos b i vox.1).index c
  by_cases hcb : c = b
  · subst hcb; rw [set_pos_index_self, set_pos_index_self]
  · rw [set_pos_index_ne b i u c hcb, set_pos_index_ne b i vox.1 c hcb]
    exact h u hu

theorem agreeOn_applyAll_inc {b : Nat} {c : Nat} {vox : Views}
    (h : AgreeOn vox c) : AgreeOn (applyAll (inc_pos b) vox) c := by
  intro w hw
  obtain ⟨u, hu, rfl⟩ := List.mem_map.1 hw
  show (inc_pos b u).index c = (inc_pos b vox.1).index c
  by_cases hcb : c = b
  · subst hcb; rw [inc_pos_index_self, inc_pos_index_self, h u hu]
  · rw [inc_pos_index_ne b u c hcb, inc_pos_index_ne b vox.1 c hcb]
    exact h u hu

theorem agreeOn_applyAll_set_self (b : Nat) (i : Int) (vox : Views) :
    AgreeOn (applyAll (set_pos b i) vox) b := by
  intro w hw
  obtain ⟨u, hu, rfl⟩ := List.mem_map.1 hw
  show (set_pos b i u).index b = (set_pos b i vox.1).index b
  rw [set_pos_index_self, set_pos_index_self]

theorem OpsOn.agreeOn {S : Nat → Prop} {vox vox' : Views}
    (h : OpsOn S vox vox') (c : Nat) (hc : AgreeOn vox c) : AgreeOn vox' c := by
  induction h with
  | refl => exact hc
  | set b i vox vox' hb _ ih => exact ih (agreeOn_applyAll_set hc)
  | inc b vox vox' hb _ ih => exact ih (agreeOn_applyAll_inc hc)

/-! ## `OpsOn` reachability of the composite operations -/

theorem foldl_set_ops (axes : List Nat) (vox : Views) :
    OpsOn (fun c => c ∈ axes) vox
      (axes.foldl (fun w a => applyAll (set_pos a 0) w) vox) := by
  induction axes generalizing vox with
  | nil => exact OpsOn.refl vox
  | cons a t ih =>
      rw [List.foldl_cons]
      refine OpsOn.set a 0 _ _ (by simp) ?_
      exact (ih (applyAll (set_pos a 0) vox)).mono (fun c hc => by simp [hc])

theorem staticCarry_ops (rest : List Nat) (vox : Views) :
    OpsOn (fun c => c ∈ rest) vox (staticCarry vox rest).1 := by
  induction rest generalizing vox with
  | nil => exact OpsOn.refl vox
  | cons a t ih =>
      simp only [staticCarry]
      split
      · exact OpsOn.inc a _ _ (by simp) (OpsOn.refl _)
      · refine OpsOn.inc a _ _ (by simp) (OpsOn.set a 0 _ _ (by simp) ?_)
        exact (ih _).mono (fun c hc => by simp [hc])

theorem dynamicCarry_ops (rest : List Nat) (vox : Views) (prev : Nat) :
    OpsOn (fun c => c = prev ∨ c ∈ rest) vox (dynamicCarry vox prev rest).1 := by
  induction rest generalizing vox prev with
  | nil => exact OpsOn.refl vox
  | cons a t ih =>
      simp only [dynamicCarry]
      split
      · refine OpsOn.set prev 0 _ _ (by simp) ?_
        exact OpsOn.inc a _ _ (by simp) (OpsOn.refl _)
      · refine OpsOn.set prev 0 _ _ (by simp) (OpsOn.inc a _ _ (by simp) ?_)
        exact (ih _ a).mono (fun c hc => by rcases hc with h | h <;> simp [h])

theorem rangeCarryGo_eq_staticCarry (k : Nat) :
    ∀ (axis : Nat) (vox : Views),
    rangeCarryGo k axis vox = staticCarry vox (List.range' axis k) := by
  induction k with
  | zero => intro axis vox; rfl
  | succ k ih =>
      intro axis vox
      rw [List.range'_succ]
      simp only [rangeCarryGo, staticCarry]
      split
      · rfl
      · exact ih (axis + 1) _

theorem rangeCarry_eq_staticCarry (to_ axis : Nat) (vox : Views) :
    rangeCarry to_ axis vox = staticCarry vox (List.range' axis (to_ - axis)) := by
  rw [rangeCarry, rangeCarryGo_eq_staticCarry]

theorem rangeCarry_ops (to_ axis : Nat) (vox : Views) :
    OpsOn (fun c => axis ≤ c ∧ c < to_) vox (rangeCarry to_ axis vox).1 := by
  rw [rangeCarry_eq_staticCarry]
  refine (staticCarry_ops (List.range' axis (to_ - axis)) vox).mono (fun c hc => ?_)
  rw [List.mem_range'_1] at hc
  omega

/-! ## Field constancy of the cursors -/

theorem static_inc_fields (r : LoopAlongStaticAxes.Run) :
    r.inc.axes = r.axes ∧ r.inc.from_ = r.from_ ∧ r.inc.size0 = r.size0 := by
  simp only [LoopAlongStaticAxes.Run.inc]
  split <;> exact ⟨rfl, rfl, rfl⟩

theorem dyn_inc_fields (r : LoopAlongDynamicAxes.Run) :
    r.inc.axes = r.axes ∧ r.inc.from_ = r.from_ ∧ r.inc.size0 = r.size0 := by
  simp only [LoopAlongDynamicAxes.Run.inc]
  split <;> exact ⟨rfl, rfl, rfl⟩

theorem range_inc_fields (r : LoopAlongAxisRange.Run) :
    r.inc.from_ = r.from_ ∧ r.inc.to_ = r.to_ ∧ r.inc.size0 = r.size0 := by
  simp only [LoopAlongAxisRange.Run.inc]
  split <;> exact ⟨rfl, rfl, rfl⟩

theorem statIter_fields (axes : List Nat) (vox : Views) (n : Nat) :
    (statIter axes vox n).axes = axes ∧
    (statIter axes vox n).from_ = axes.headI ∧
    (statIter axes vox n).size0 = (get0 vox).size axes.headI := by
  induction n with
  | zero => exact ⟨rfl, rfl, rfl⟩
  | succ n ih =>
      have h := static_inc_fields (statIter axes vox n)
      rw [statIter, Function.iterate_succ_apply'] at *
      exact ⟨h.1.trans ih.1, h.2.1.trans ih.2.1, h.2.2.trans ih.2.2⟩

theorem dynIter_fields (axes : List Nat) (vox : Views) (n : Nat) :
    (dynIter axes vox n).axes = axes ∧
    (dynIter axes vox n).from_ = axes.headI ∧
    (dynIter axes vox n).size0 = (get0 vox).size axes.headI := by
  induction n with
  | zero => exact ⟨rfl, rfl, rfl⟩
  | succ n ih =>
      have h := dyn_inc_fields (dynIter axes vox n)
      rw [dynIter, Function.iterate_succ_apply'] at *
      exact ⟨h.1.trans ih.1, h.2.1.trans ih.2.1, h.2.2.trans ih.2.2⟩

theorem rangeIter_fields (axis_from axis_to : Nat) (vox : Views) (n : Nat) :
    (rangeIter axis_from axis_to vox n).from_ = axis_from ∧
    (rangeIter axis_from axis_to vox n).to_ = resolveTo axis_to vox ∧
    (rangeIter axis_from axis_to vox n).size0 = (get0 vox).size axis_from := by
  induction n with
  | zero => exact ⟨rfl, rfl, rfl⟩
  | succ n ih =>
      have h := range_inc_fields (rangeIter axis_from axis_to vox n)
      rw [rangeIter, Function.iterate_succ_apply'] at *
      exact ⟨h.1.trans ih.1, h.2.1.trans ih.2.1, h.2.2.trans ih.2.2⟩

/-! ## `OpsOn` reachability of constructors, advances and iterated runs -/

theorem static_init_ops (axes : List Nat) (vox : Views) :
    OpsOn (fun c => c ∈ axes) vox (LoopAlongStaticAxes.Run.init axes vox).vox :=
  foldl_set_ops axes vox

theorem dyn_init_ops (axes : List Nat) (vox : Views) :
    OpsOn (fun c => c ∈ axes) vox (LoopAlongDynamicAxes.Run.init axes vox).vox :=
  foldl_set_ops axes vox

theorem range_init_ops (axis_from axis_to : Nat) (vox : Views) :
    OpsOn (fun c => axis_from ≤ c ∧ c < resolveTo axis_to vox) vox
      (LoopAlongAxisRange.Run.init axis_from axis_to vox).vox := by
  refine (foldl_set_ops (List.range' axis_from (resolveTo axis_to vox - axis_from)) vox).mono ?_
  intro c hc
  rw [List.mem_range'_1] at hc
  omega

theorem static_inc_ops (r : LoopAlongStaticAxes.Run) (hfrom : r.from_ ∈ r.axes) :
    OpsOn (fun c => c ∈ r.axes) r.vox r.inc.vox := by
  simp only [LoopAlongStaticAxes.Run.inc]
  split
  · exact OpsOn.inc r.from_ _ _ hfrom (OpsOn.refl _)
  · refine OpsOn.inc r.from_ _ _ hfrom (OpsOn.set r.from_ 0 _ _ hfrom ?_)
    exact (staticCarry_ops r.axes.tail _).mono (fun c hc => List.mem_of_mem_tail hc)

theorem dyn_inc_ops (r : LoopAlongDynamicAxes.Run) (hfrom : r.from_ ∈ r.axes) :
    OpsOn (fun c => c ∈ r.axes) r.vox r.inc.vox := by
  simp only [LoopAlongDynamicAxes.Run.inc]
  split
  · exact OpsOn.inc r.from_ _ _ hfrom (OpsOn.refl _)
  · refine OpsOn.inc r.from_ _ _ hfrom ?_
    refine (dynamicCarry_ops r.axes.tail _ r.from_).mono (fun c hc => ?_)
    rcases hc with h | h
    · rw [h]; exact hfrom
    · exact List.mem_of_mem_tail h

theorem range_inc_ops (r : LoopAlongAxisRange.Run) :
    OpsOn (fun c => c = r.from_ ∨ (r.from_ ≤ c ∧ c < r.to_)) r.vox r.inc.vox := by
  simp only [LoopAlongAxisRange.Run.inc]
  split
  · exact OpsOn.inc r.from_ _ _ (Or.inl rfl) (OpsOn.refl _)
  · refine OpsOn.inc r.from_ _ _ (Or.inl rfl) (OpsOn.set r.from_ 0 _ _ (Or.inl rfl) ?_)
    exact (rangeCarry_ops r.to_ (r.from_ + 1) _).mono (fun c hc => Or.inr ⟨by omega, hc.2⟩)

theorem headI_mem_of_ne_nil {l : List Nat} (h : l ≠ []) : l.headI ∈ l := by
  cases l with
  | nil => exact absurd rfl h
  | cons a t => exact List.mem_cons_self a t

theorem statIter_ops (axes : List Nat) (vox : Views) (hne : axes ≠ []) (n : Nat) :
    OpsOn (fun c => c ∈ axes) vox (statIter axes vox n).vox := by
  induction n with
  | zero => exact static_init_ops axes vox
  | succ n ih =>
      rw [statIter, Function.iterate_succ_apply']
      refine ih.trans ?_
      have hf := (statIter_fields axes vox n).1
      have hf2 := (statIter_fields axes vox n).2.1
      have : (statIter axes vox n).from_ ∈ (statIter axes vox n).axes := by
        rw [hf, hf2]; exact headI_mem_of_ne_nil hne
      exact (static_inc_ops _ this).mono (fun c hc => by rw [hf] at hc; exact hc)

theorem dynIter_ops (axes : List Nat) (vox : Views) (hne : axes ≠ []) (n : Nat) :
    OpsOn (fun c => c ∈ axes) vox (dynIter axes vox n).vox := by
  induction n with
  | zero => exact dyn_init_ops axes vox
  | succ n ih =>
      rw [dynIter, Function.iterate_succ_apply']
      refine ih.trans ?_
      have hf := (dynIter_fields axes vox n).1
      have hf2 := (dynIter_fields axes vox n).2.1
      have : (dynIter axes vox n).from_ ∈ (dynIter axes vox n).axes := by
        rw [hf, hf2]; exact headI_mem_of_ne_nil hne
      exact (dyn_inc_ops _ this).mono (fun c hc => by rw [hf] at hc; exact hc)

theorem rangeIter_ops (axis_from axis_to : Nat) (vox : Views)
    (hlt : axis_from < resolveTo axis_to vox) (n : Nat) :
    OpsOn (fun c => axis_from ≤ c ∧ c < resolveTo axis_to vox) vox
      (rangeIter axis_from axis_to vox n).vox := by
  induction n with
  | zero => exact range_init_ops axis_from axis_to vox
  | succ n ih =>
      rw [rangeIter, Function.iterate_succ_apply']
      refine ih.trans ?_
      have hf := (rangeIter_fields axis_from axis_to vox n).1
      have ht := (rangeIter_fields axis_from axis_to vox n).2.1
      refine (range_inc_ops (rangeIter axis_from axis_to vox n)).mono (fun c hc => ?_)
      rw [hf, ht] at hc
      rcases hc with h | h
      · exact ⟨le_of_eq h.symm, by omega⟩
      · exact h

/-! ## Arithmetic of the abstract odometer -/

theorem natDigits_length (es : List Nat) (n : Nat) :
    (natDigits es n).length = es.length := by
  induction es generalizing n with
  | nil => rfl
  | cons e tl ih => simp [natDigits, ih]

theorem natDigits_zero (es : List Nat) :
    natDigits es 0 = List.replicate es.length 0 := by
  induction es with
  | nil => rfl
  | cons e tl ih => simp [natDigits, Nat.zero_mod, Nat.zero_div, ih, List.replicate]

theorem zipPair_map_fst (ds es : List Nat) (h : ds.length = es.length) :
    (zipPair ds es).map Prod.fst = ds := by
  induction ds generalizing es with
  | nil => simp [zipPair]
  | cons a as ih =>
      cases es with
      | nil => simp at h
      | cons b bs =>
          simp only [zipPair, List.map_cons]
          rw [ih bs (by simpa using h)]

theorem odoInc_digits (es : List Nat) (hpos : ∀ e ∈ es, 0 < e) :
    ∀ n, n < es.prod →
    odoInc (zipPair (natDigits es n) es) =
      if n + 1 < es.prod then some (natDigits es (n + 1)) else none := by
  induction es with
  | nil =>
      intro n hn
      simp only [List.prod_nil] at hn
      have : n = 0 := by omega
      subst this
      simp [natDigits, odoInc]
  | cons e tl ih =>
      intro n hn
      have he : 0 < e := hpos e (List.mem_cons_self e tl)
      have htl : ∀ x ∈ tl, 0 < x := fun x hx => hpos x (List.mem_cons_of_mem e hx)
      simp only [List.prod_cons] at hn ⊢
      have hqe : e * (n / e) + n % e = n := Nat.div_add_mod n e
      have hre : n % e < e := Nat.mod_lt n he
      have hq : n / e < tl.prod := by
        by_contra hcon
        push_neg at hcon
        have := Nat.mul_le_mul (le_refl e) hcon
        omega
      simp only [natDigits, zipPair, odoInc]
      by_cases hcar : n % e + 1 < e
      · rw [if_pos hcar]
        have h3 : e * (n / e + 1) ≤ e * tl.prod :=
          Nat.mul_le_mul (le_refl e) (by omega)
        have h2 : e * (n / e + 1) = e * (n / e) + e := by ring
        have hlt : n + 1 < e * tl.prod := by omega
        rw [if_pos hlt]
        have hmod : (n + 1) % e = n % e + 1 := by
          conv_lhs => rw [← hqe]
          rw [show e * (n / e) + n % e + 1 = e * (n / e) + (n % e + 1) by ring]
          rw [Nat.mul_add_mod]
          exact Nat.mod_eq_of_lt hcar
        have hdiv : (n + 1) / e = n / e := by
          conv_lhs => rw [← hqe]
          rw [show e * (n / e) + n % e + 1 = e * (n / e) + (n % e + 1) by ring]
          rw [Nat.mul_add_div he]
          rw [Nat.div_eq_of_lt hcar]
          omega
        rw [hmod, hdiv]
        rw [zipPair_map_fst _ _ (natDigits_length tl (n / e))]
      · rw [if_neg hcar]
        have hre1 : n % e + 1 = e := by omega
        have hn1 : n + 1 = e * (n / e + 1) := by
          have hx : e * (n / e + 1) = e * (n / e) + e := by ring
          omega
        rw [ih htl (n / e) hq]
        by_cases hq1 : n / e + 1 < tl.prod
        · have hlt : n + 1 < e * tl.prod := by
            rw [hn1]
            exact mul_lt_mul_of_pos_left hq1 he
          rw [if_pos hq1, if_pos hlt]
          have hmod : (n + 1) % e = 0 := by rw [hn1]; exact Nat.mul_mod_right e _
          have hdiv : (n + 1) / e = n / e + 1 := by
            rw [hn1]; exact Nat.mul_div_cancel_left _ he
          rw [hmod, hdiv]
          rfl
        · have hge : ¬ (n + 1 < e * tl.prod) := by
            rw [hn1]
            intro hcon
            exact hq1 (Nat.lt_of_mul_lt_mul_left hcon)
          rw [if_neg hq1, if_neg hge]
          rfl

/-! ## The constructors zero the selected axes -/

theorem foldl_set_index (axes : List Nat) (vox : Views) (a : Nat) (ha : a ∈ axes) :
    (axes.foldl (fun w b => applyAll (set_pos b 0) w) vox).1.index a = 0 := by
  induction axes generalizing vox with
  | nil => cases ha
  | cons b t ih =>
      rw [List.foldl_cons]
      by_cases hat : a ∈ t
      · exact ih _ hat
      · have hab : a = b := by
          rcases List.mem_cons.1 ha with h | h
          · exact h
          · exact absurd h hat
        subst hab
        have hunch := (foldl_set_ops t (applyAll (set_pos a 0) vox)).unchanged a hat
        rw [hunch.1]
        exact set_pos_index_self a 0 vox.1

theorem foldl_set_agree (axes : List Nat) (vox : Views) (a : Nat) (ha : a ∈ axes) :
    AgreeOn (axes.foldl (fun w b => applyAll (set_pos b 0) w) vox) a := by
  induction axes generalizing vox with
  | nil => cases ha
  | cons b t ih =>
      rw [List.foldl_cons]
      by_cases hat : a ∈ t
      · exact ih _ hat
      · have hab : a = b := by
          rcases List.mem_cons.1 ha with h | h
          · exact h
          · exact absurd h hat
        subst hab
        exact (foldl_set_ops t _).agreeOn a (agreeOn_applyAll_set_self a 0 vox)

/-! ## The static-axes carry loop implements the abstract odometer -/

theorem staticCarry_spec (rest : List Nat) :
    ∀ (vox : Views) (ds es : List Nat),
    rest.Nodup →
    rest.map vox.1.index = ds.map (fun d : Nat => (d : Int)) →
    rest.map vox.1.size = es.map (fun e : Nat => (e : Int)) →
    (∀ ds', odoInc (zipPair ds es) = some ds' →
      (staticCarry vox rest).2 = true ∧
      rest.map (staticCarry vox rest).1.1.index = ds'.map (fun d : Nat => (d : Int))) ∧
    (odoInc (zipPair ds es) = none → (staticCarry vox rest).2 = false) := by
  induction rest with
  | nil =>
      intro vox ds es hnd hds hes
      have hds0 : ds = [] := by
        cases ds with
        | nil => rfl
        | cons d ds' => simp at hds
      subst hds0
      refine ⟨fun ds' h => ?_, fun _ => rfl⟩
      simp [zipPair, odoInc] at h
  | cons b t ih =>
      intro vox ds es hnd hds hes
      cases ds with
      | nil => simp at hds
      | cons d ds₀ =>
      cases es with
      | nil => simp at hes
      | cons e es₀ =>
      simp only [List.map_cons, List.cons.injEq] at hds hes
      obtain ⟨hdb, hds₀⟩ := hds
      obtain ⟨heb, hes₀⟩ := hes
      obtain ⟨hbt, hndt⟩ := List.nodup_cons.1 hnd
      have hwb : (applyAll (inc_pos b) vox).1.index b = (d : Int) + 1 := by
        show (inc_pos b vox.1).index b = _
        rw [inc_pos_index_self, hdb]
      have hwt : t.map (applyAll (inc_pos b) vox).1.index = ds₀.map (fun x : Nat => (x : Int)) := by
        rw [← hds₀]
        refine List.map_congr_left (fun c hc => ?_)
        exact inc_pos_index_ne b vox.1 c (fun hcb => hbt (hcb ▸ hc))
      have hlen : ds₀.length = es₀.length := by
        have h1 := congrArg List.length hds₀
        have h2 := congrArg List.length hes₀
        simp only [List.length_map] at h1 h2
        omega
      by_cases hc : d + 1 < e
      · have hcondI : (applyAll (inc_pos b) vox).1.index b <
            (applyAll (inc_pos b) vox).1.size b := by
          rw [hwb]
          show ((d : Int) + 1 : Int) < vox.1.size b
          rw [heb]
          exact_mod_cast hc
        have hcarry : staticCarry vox (b :: t) = (applyAll (inc_pos b) vox, true) := by
          simp only [staticCarry]
          rw [if_pos hcondI]
        have hodo : odoInc (zipPair (d :: ds₀) (e :: es₀)) = some ((d + 1) :: ds₀) := by
          simp only [zipPair, odoInc, if_pos hc]
          rw [zipPair_map_fst ds₀ es₀ hlen]
        constructor
        · intro ds' h
          rw [hodo] at h
          obtain rfl : (d + 1) :: ds₀ = ds' := Option.some.injEq _ _ ▸ h
          refine ⟨by rw [hcarry], ?_⟩
          rw [hcarry]
          simp only [List.map_cons]
          rw [hwb, hwt]
          simp
        · intro h
          rw [hodo] at h
          cases h
      · have hcondI : ¬ ((applyAll (inc_pos b) vox).1.index b <
            (applyAll (inc_pos b) vox).1.size b) := by
          rw [hwb]
          show ¬ (((d : Int) + 1 : Int) < vox.1.size b)
          rw [heb]
          intro hcon
          exact hc (by exact_mod_cast hcon)
        have hcarry : staticCarry vox (b :: t) =
            staticCarry (applyAll (set_pos b 0) (applyAll (inc_pos b) vox)) t := by
          simp only [staticCarry]
          rw [if_neg hcondI]
        have hw2t : t.map (applyAll (set_pos b 0) (applyAll (inc_pos b) vox)).1.index =
            ds₀.map (fun x : Nat => (x : Int)) := by
          rw [← hwt]
          refine List.map_congr_left (fun c hc2 => ?_)
          exact set_pos_index_ne b 0 _ c (fun hcb => hbt (hcb ▸ hc2))
        have hw2s : t.map (applyAll (set_pos b 0) (applyAll (inc_pos b) vox)).1.size =
            es₀.map (fun x : Nat => (x : Int)) := hes₀
        have ihw := ih (applyAll (set_pos b 0) (applyAll (inc_pos b) vox)) ds₀ es₀ hndt hw2t hw2s
        have hodo : odoInc (zipPair (d :: ds₀) (e :: es₀)) =
            (odoInc (zipPair ds₀ es₀)).map (fun xs => 0 :: xs) := by
          simp only [zipPair, odoInc, if_neg hc]
        constructor
        · intro ds' h
          rw [hodo] at h
          cases hrec : odoInc (zipPair ds₀ es₀) with
          | none => rw [hrec] at h; cases h
          | some ds'' =>
              rw [hrec] at h
              simp only [Option.map_some'] at h
              obtain rfl : 0 :: ds'' = ds' := Option.some.injEq _ _ ▸ h
              obtain ⟨hok2, hpos2⟩ := ihw.1 ds'' hrec
              refine ⟨by rw [hcarry]; exact hok2, ?_⟩
              rw [hcarry]
              simp only [List.map_cons]
              have hunch := (staticCarry_ops t
                  (applyAll (set_pos b 0) (applyAll (inc_pos b) vox))).unchanged b hbt
              have hb0 : (staticCarry (applyAll (set_pos b 0) (applyAll (inc_pos b) vox)) t).1.1.index b = 0 := by
                rw [hunch.1]
                exact set_pos_index_self b 0 _
              rw [hb0, hpos2]
              norm_num
        · intro h
          rw [hodo] at h
          cases hrec : odoInc (zipPair ds₀ es₀) with
          | none =>
              rw [hcarry]
              exact ihw.2 hrec
          | some ds'' => rw [hrec] at h; cases h

theorem static_inc_spec (r : LoopAlongStaticAxes.Run) (ds es : List Nat)
    (hne : r.axes ≠ []) (hnd : r.axes.Nodup)
    (hfrom : r.from_ = r.axes.headI)
    (hsz0 : r.size0 = r.vox.1.size r.from_)
    (hok : r.ok = true)
    (hds : r.axes.map r.vox.1.index = ds.map (fun d : Nat => (d : Int)))
    (hes : r.axes.map r.vox.1.size = es.map (fun e : Nat => (e : Int))) :
    (∀ ds', odoInc (zipPair ds es) = some ds' →
      r.inc.ok = true ∧
      r.axes.map r.inc.vox.1.index = ds'.map (fun d : Nat => (d : Int))) ∧
    (odoInc (zipPair ds es) = none → r.inc.ok = false) := by
  rcases haxes : r.axes with _ | ⟨a, rest⟩
  · exact absurd haxes hne
  · rw [haxes] at hds hes hnd hfrom
    have hfa : r.from_ = a := by rw [hfrom]; rfl
    subst hfa
    cases ds with
    | nil => simp at hds
    | cons d ds₀ =>
    cases es with
    | nil => simp at hes
    | cons e es₀ =>
    simp only [List.map_cons, List.cons.injEq] at hds hes
    obtain ⟨hda, hds₀⟩ := hds
    obtain ⟨hea, hes₀⟩ := hes
    obtain ⟨hat, hndt⟩ := List.nodup_cons.1 hnd
    have hlen : ds₀.length = es₀.length := by
      have h1 := congrArg List.length hds₀
      have h2 := congrArg List.length hes₀
      simp only [List.length_map] at h1 h2
      omega
    have hwa : (applyAll (inc_pos r.from_) r.vox).1.index r.from_ = (d : Int) + 1 := by
      show (inc_pos r.from_ r.vox.1).index r.from_ = _
      rw [inc_pos_index_self, hda]
    have hwt : rest.map (applyAll (inc_pos r.from_) r.vox).1.index =
        ds₀.map (fun x : Nat => (x : Int)) := by
      rw [← hds₀]
      refine List.map_congr_left (fun c hc => ?_)
      exact inc_pos_index_ne r.from_ r.vox.1 c (fun hcb => hat (hcb ▸ hc))
    have htail : r.axes.tail = rest := by rw [haxes]; rfl
    by_cases hc : d + 1 < e
    · have hcondI : (applyAll (inc_pos r.from_) r.vox).1.index r.from_ < r.size0 := by
        rw [hwa, hsz0, hea]
        exact_mod_cast hc
      have hinc : r.inc = { r with vox := applyAll (inc_pos r.from_) r.vox } := by
        simp only [LoopAlongStaticAxes.Run.inc]
        rw [if_pos hcondI]
      have hodo : odoInc (zipPair (d :: ds₀) (e :: es₀)) = some ((d + 1) :: ds₀) := by
        simp only [zipPair, odoInc, if_pos hc]
        rw [zipPair_map_fst ds₀ es₀ hlen]
      constructor
      · intro ds' h
        rw [hodo] at h
        obtain rfl : (d + 1) :: ds₀ = ds' := by injection h
        refine ⟨by rw [hinc]; exact hok, ?_⟩
        rw [hinc, haxes]
        simp only [List.map_cons]
        rw [hwa, hwt]
        simp
      · intro h
        rw [hodo] at h
        cases h
    · have hcondI : ¬ ((applyAll (inc_pos r.from_) r.vox).1.index r.from_ < r.size0) := by
        rw [hwa, hsz0, hea]
        intro hcon
        exact hc (by exact_mod_cast hcon)
      have hinc : r.inc = { r with
          vox := (staticCarry (applyAll (set_pos r.from_ 0)
            (applyAll (inc_pos r.from_) r.vox)) r.axes.tail).1,
          ok := (staticCarry (applyAll (set_pos r.from_ 0)
            (applyAll (inc_pos r.from_) r.vox)) r.axes.tail).2 } := by
        simp only [LoopAlongStaticAxes.Run.inc]
        rw [if_neg hcondI]
      have hw2t : rest.map (applyAll (set_pos r.from_ 0)
          (applyAll (inc_pos r.from_) r.vox)).1.index = ds₀.map (fun x : Nat => (x : Int)) := by
        rw [← hwt]
        refine List.map_congr_left (fun c hc2 => ?_)
        exact set_pos_index_ne r.from_ 0 _ c (fun hcb => hat (hcb ▸ hc2))
      have hw2s : rest.map (applyAll (set_pos r.from_ 0)
          (applyAll (inc_pos r.from_) r.vox)).1.size = es₀.map (fun x : Nat => (x : Int)) := hes₀
      have hcs := staticCarry_spec rest (applyAll (set_pos r.from_ 0)
          (applyAll (inc_pos r.from_) r.vox)) ds₀ es₀ hndt hw2t hw2s
      have hodo : odoInc (zipPair (d :: ds₀) (e :: es₀)) =
          (odoInc (zipPair ds₀ es₀)).map (fun xs => 0 :: xs) := by
        simp only [zipPair, odoInc, if_neg hc]
      constructor
      · intro ds' h
        rw [hodo] at h
        cases hrec : odoInc (zipPair ds₀ es₀) with
        | none => rw [hrec] at h; cases h
        | some ds'' =>
            rw [hrec] at h
            simp only [Option.map_some'] at h
            obtain rfl : 0 :: ds'' = ds' := by injection h
            obtain ⟨hok2, hpos2⟩ := hcs.1 ds'' hrec
            rw [hinc, htail]
            refine ⟨hok2, ?_⟩
            rw [haxes]
            simp only [List.map_cons]
            have hunch := (staticCarry_ops rest (applyAll (set_pos r.from_ 0)
                (applyAll (inc_pos r.from_) r.vox))).unchanged r.from_ hat
            have hb0 : (staticCarry (applyAll (set_pos r.from_ 0)
                (applyAll (inc_pos r.from_) r.vox)) rest).1.1.index r.from_ = 0 := by
              rw [hunch.1]
              exact set_pos_index_self r.from_ 0 _
            rw [hb0, hpos2]
            norm_num
      · intro h
        rw [hodo] at h
        cases hrec : odoInc (zipPair ds₀ es₀) with
        | none =>
            rw [hinc, htail]
            exact hcs.2 hrec
        | some ds'' => rw [hrec] at h; cases h

theorem statIter_succ (axes : List Nat) (vox : Views) (n : Nat) :
    statIter axes vox (n + 1) = (statIter axes vox n).inc := by
  rw [statIter, statIter, Function.iterate_succ_apply']

theorem dynIter_succ (axes : List Nat) (vox : Views) (n : Nat) :
    dynIter axes vox (n + 1) = (dynIter axes vox n).inc := by
  rw [dynIter, dynIter, Function.iterate_succ_apply']

theorem rangeIter_succ (axis_from axis_to : Nat) (vox : Views) (n : Nat) :
    rangeIter axis_from axis_to vox (n + 1) = (rangeIter axis_from axis_to vox n).inc := by
  rw [rangeIter, rangeIter, Function.iterate_succ_apply']

theorem singleIter_succ (axis : Nat) (vox : Views) (n : Nat) :
    singleIter axis vox (n + 1) = (singleIter axis vox n).inc := by
  rw [singleIter, singleIter, Function.iterate_succ_apply']

theorem rangeProgIter_succ (axis_from axis_to : Nat) (vox : Views) (n : Nat) :
    rangeProgIter axis_from axis_to vox (n + 1) =
      (rangeProgIter axis_from axis_to vox n).inc := by
  rw [rangeProgIter, rangeProgIter, Function.iterate_succ_apply']

theorem extentsOf_pos (axes : List Nat) (vox : Views)
    (hpos : ∀ a ∈ axes, 0 < vox.1.size a) :
    ∀ e ∈ extentsOf axes vox, 0 < e := by
  intro e he
  obtain ⟨a, ha, rfl⟩ := List.mem_map.1 he
  have := hpos a ha
  omega

theorem extentsOf_cast (axes : List Nat) (vox : Views)
    (hpos : ∀ a ∈ axes, 0 < vox.1.size a) :
    axes.map vox.1.size = (extentsOf axes vox).map (fun e : Nat => (e : Int)) := by
  rw [extentsOf, List.map_map]
  refine List.map_congr_left (fun a ha => ?_)
  exact (Int.toNat_of_nonneg (le_of_lt (hpos a ha))).symm

theorem statIter_spec (axes : List Nat) (vox : Views) (hne : axes ≠ [])
    (hnd : axes.Nodup) (hpos : ∀ a ∈ axes, 0 < vox.1.size a) :
    ∀ n, n < (extentsOf axes vox).prod →
      (statIter axes vox n).ok = true ∧
      axes.map (statIter axes vox n).vox.1.index =
        (natDigits (extentsOf axes vox) n).map (fun d : Nat => (d : Int)) := by
  intro n
  induction n with
  | zero =>
      intro _
      refine ⟨rfl, ?_⟩
      rw [natDigits_zero, List.map_replicate]
      refine List.eq_replicate_iff.2 ⟨by simp [extentsOf], fun b hb => ?_⟩
      obtain ⟨a, ha, rfl⟩ := List.mem_map.1 hb
      have h0 : (statIter axes vox 0).vox.1.index a = 0 := foldl_set_index axes vox a ha
      rw [h0]
      norm_num
  | succ n ih =>
      intro hn
      have hnn : n < (extentsOf axes vox).prod := by omega
      obtain ⟨hok, hds⟩ := ih hnn
      have hfields := statIter_fields axes vox n
      have hszc : (statIter axes vox n).vox.1.size = vox.1.size :=
        (statIter_ops axes vox hne n).get0_size
      have hsz0 : (statIter axes vox n).size0 =
          (statIter axes vox n).vox.1.size (statIter axes vox n).from_ := by
        rw [hfields.2.2, hszc, hfields.2.1]
      have hds' : (statIter axes vox n).axes.map (statIter axes vox n).vox.1.index =
          (natDigits (extentsOf axes vox) n).map (fun d : Nat => (d : Int)) := by
        rw [hfields.1]; exact hds
      have hes' : (statIter axes vox n).axes.map (statIter axes vox n).vox.1.size =
          (extentsOf axes vox).map (fun e : Nat => (e : Int)) := by
        rw [hfields.1, hszc]
        exact extentsOf_cast axes vox hpos
      have hspec := static_inc_spec (statIter axes vox n)
        (natDigits (extentsOf axes vox) n) (extentsOf axes vox)
        (by rw [hfields.1]; exact hne) (by rw [hfields.1]; exact hnd)
        (by rw [hfields.2.1, hfields.1]) hsz0 hok hds' hes'
      have hodo := odoInc_digits (extentsOf axes vox)
        (extentsOf_pos axes vox hpos) n hnn
      rw [if_pos hn] at hodo
      obtain ⟨hok1, hds1⟩ := hspec.1 (natDigits (extentsOf axes vox) (n + 1)) hodo
      rw [statIter_succ]
      refine ⟨hok1, ?_⟩
      rw [hfields.1] at hds1
      exact hds1

theorem statIter_exhaust (axes : List Nat) (vox : Views) (hne : axes ≠ [])
    (hnd : axes.Nodup) (hpos : ∀ a ∈ axes, 0 < vox.1.size a) :
    (statIter axes vox (extentsOf axes vox).prod).ok = false := by
  have hN : 0 < (extentsOf axes vox).prod :=
    List.prod_pos (extentsOf_pos axes vox hpos)
  set N := (extentsOf axes vox).prod with hNdef
  have hlast : N - 1 < N := by omega
  obtain ⟨hok, hds⟩ := statIter_spec axes vox hne hnd hpos (N - 1) hlast
  have hfields := statIter_fields axes vox (N - 1)
  have hszc : (statIter axes vox (N - 1)).vox.1.size = vox.1.size :=
    (statIter_ops axes vox hne (N - 1)).get0_size
  have hsz0 : (statIter axes vox (N - 1)).size0 =
      (statIter axes vox (N - 1)).vox.1.size (statIter axes vox (N - 1)).from_ := by
    rw [hfields.2.2, hszc, hfields.2.1]
  have hds' : (statIter axes vox (N - 1)).axes.map (statIter axes vox (N - 1)).vox.1.index =
      (natDigits (extentsOf axes vox) (N - 1)).map (fun d : Nat => (d : Int)) := by
    rw [hfields.1]; exact hds
  have hes' : (statIter axes vox (N - 1)).axes.map (statIter axes vox (N - 1)).vox.1.size =
      (extentsOf axes vox).map (fun e : Nat => (e : Int)) := by
    rw [hfields.1, hszc]
    exact extentsOf_cast axes vox hpos
  have hspec := static_inc_spec (statIter axes vox (N - 1))
    (natDigits (extentsOf axes vox) (N - 1)) (extentsOf axes vox)
    (by rw [hfields.1]; exact hne) (by rw [hfields.1]; exact hnd)
    (by rw [hfields.2.1, hfields.1]) hsz0 hok hds' hes'
  have hodo := odoInc_digits (extentsOf axes vox)
    (extentsOf_pos axes vox hpos) (N - 1) hlast
  rw [if_neg (by omega)] at hodo
  have hfin := hspec.2 hodo
  have hsucc : N - 1 + 1 = N := by omega
  rw [← hsucc, statIter_succ]
  exact hfin

/-! ## The dynamic-axes carry loop implements the same abstract odometer -/

theorem dynamicCarry_spec (rest : List Nat) :
    ∀ (vox : Views) (prev : Nat) (ds es : List Nat),
    rest.Nodup → prev ∉ rest →
    rest.map vox.1.index = ds.map (fun d : Nat => (d : Int)) →
    rest.map vox.1.size = es.map (fun e : Nat => (e : Int)) →
    (∀ ds', odoInc (zipPair ds es) = some ds' →
      (dynamicCarry vox prev rest).2 = true ∧
      (dynamicCarry vox prev rest).1.1.index prev = 0 ∧
      rest.map (dynamicCarry vox prev rest).1.1.index =
        ds'.map (fun d : Nat => (d : Int))) ∧
    (odoInc (zipPair ds es) = none → (dynamicCarry vox prev rest).2 = false) := by
  induction rest with
  | nil =>
      intro vox prev ds es hnd hpv hds hes
      have hds0 : ds = [] := by
        cases ds with
        | nil => rfl
        | cons d ds' => simp at hds
      subst hds0
      refine ⟨fun ds' h => ?_, fun _ => rfl⟩
      simp [zipPair, odoInc] at h
  | cons b t ih =>
      intro vox prev ds es hnd hpv hds hes
      cases ds with
      | nil => simp at hds
      | cons d ds₀ =>
      cases es with
      | nil => simp at hes
      | cons e es₀ =>
      simp only [List.map_cons, List.cons.injEq] at hds hes
      obtain ⟨hdb, hds₀⟩ := hds
      obtain ⟨heb, hes₀⟩ := hes
      obtain ⟨hbt, hndt⟩ := List.nodup_cons.1 hnd
      have hpb : prev ≠ b := fun h => hpv (h ▸ List.mem_cons_self b t)
      have hpt : prev ∉ t := fun h => hpv (List.mem_cons_of_mem b h)
      have hlen : ds₀.length = es₀.length := by
        have h1 := congrArg List.length hds₀
        have h2 := congrArg List.length hes₀
        simp only [List.length_map] at h1 h2
        omega
      have hwb : (applyAll (inc_pos b) (applyAll (set_pos prev 0) vox)).1.index b =
          (d : Int) + 1 := by
        show (inc_pos b (set_pos prev 0 vox.1)).index b = _
        rw [inc_pos_index_self, set_pos_index_ne prev 0 vox.1 b (fun h => hpb h.symm), hdb]
      have hwp : (applyAll (inc_pos b) (applyAll (set_pos prev 0) vox)).1.index prev = 0 := by
        show (inc_pos b (set_pos prev 0 vox.1)).index prev = _
        rw [inc_pos_index_ne b _ prev hpb, set_pos_index_self]
      have hwt : t.map (applyAll (inc_pos b) (applyAll (set_pos prev 0) vox)).1.index =
          ds₀.map (fun x : Nat => (x : Int)) := by
        rw [← hds₀]
        refine List.map_congr_left (fun c hc => ?_)
        show (inc_pos b (set_pos prev 0 vox.1)).index c = _
        rw [inc_pos_index_ne b _ c (fun hcb => hbt (hcb ▸ hc)),
          set_pos_index_ne prev 0 vox.1 c (fun hcp => hpt (hcp ▸ hc))]
      have hws : t.map (applyAll (inc_pos b) (applyAll (set_pos prev 0) vox)).1.size =
          es₀.map (fun x : Nat => (x : Int)) := hes₀
      have hwsb : (applyAll (inc_pos b) (applyAll (set_pos prev 0) vox)).1.size b = (e : Int) :=
        heb
      by_cases hc : d + 1 < e
      · have hcondI : (applyAll (inc_pos b) (applyAll (set_pos prev 0) vox)).1.index b <
            (applyAll (inc_pos b) (applyAll (set_pos prev 0) vox)).1.size b := by
          rw [hwb, hwsb]
          exact_mod_cast hc
        have hcarry : dynamicCarry vox prev (b :: t) =
            (applyAll (inc_pos b) (applyAll (set_pos prev 0) vox), true) := by
          simp only [dynamicCarry]
          rw [if_pos hcondI]
        have hodo : odoInc (zipPair (d :: ds₀) (e :: es₀)) = some ((d + 1) :: ds₀) := by
          simp only [zipPair, odoInc, if_pos hc]
          rw [zipPair_map_fst ds₀ es₀ hlen]
        constructor
        · intro ds' h
          rw [hodo] at h
          obtain rfl : (d + 1) :: ds₀ = ds' := by injection h
          refine ⟨by rw [hcarry], by rw [hcarry]; exact hwp, ?_⟩
          rw [hcarry]
          simp only [List.map_cons]
          rw [hwb, hwt]
          simp
        · intro h
          rw [hodo] at h
          cases h
      · have hcondI : ¬ ((applyAll (inc_pos b) (applyAll (set_pos prev 0) vox)).1.index b <
            (applyAll (inc_pos b) (applyAll (set_pos prev 0) vox)).1.size b) := by
          rw [hwb, hwsb]
          intro hcon
          exact hc (by exact_mod_cast hcon)
        have hcarry : dynamicCarry vox prev (b :: t) =
            dynamicCarry (applyAll (inc_pos b) (applyAll (set_pos prev 0) vox)) b t := by
          simp only [dynamicCarry]
          rw [if_neg hcondI]
        have ihw := ih (applyAll (inc_pos b) (applyAll (set_pos prev 0) vox)) b ds₀ es₀
          hndt hbt hwt hws
        have hodo : odoInc (zipPair (d :: ds₀) (e :: es₀)) =
            (odoInc (zipPair ds₀ es₀)).map (fun xs => 0 :: xs) := by
          simp only [zipPair, odoInc, if_neg hc]
        constructor
        · intro ds' h
          rw [hodo] at h
          cases hrec : odoInc (zipPair ds₀ es₀) with
          | none => rw [hrec] at h; cases h
          | some ds'' =>
              rw [hrec] at h
              simp only [Option.map_some'] at h
              obtain rfl : 0 :: ds'' = ds' := by injection h
              obtain ⟨hok2, hb0, hpos2⟩ := ihw.1 ds'' hrec
              rw [hcarry]
              refine ⟨hok2, ?_, ?_⟩
              · have hunch := (dynamicCarry_ops t
                    (applyAll (inc_pos b) (applyAll (set_pos prev 0) vox)) b).unchanged prev
                  (by intro hcon; rcases hcon with h | h; exact hpb h; exact hpt h)
                rw [hunch.1]
                exact hwp
              · simp only [List.map_cons]
                rw [hb0, hpos2]
                norm_num
        · intro h
          rw [hodo] at h
          cases hrec : odoInc (zipPair ds₀ es₀) with
          | none =>
              rw [hcarry]
              exact ihw.2 hrec
          | some ds'' => rw [hrec] at h; cases h

theorem dyn_inc_spec (r : LoopAlongDynamicAxes.Run) (ds es : List Nat)
    (hne : r.axes ≠ []) (hnd : r.axes.Nodup)
    (hfrom : r.from_ = r.axes.headI)
    (hsz0 : r.size0 = r.vox.1.size r.from_)
    (hok : r.ok = true)
    (hds : r.axes.map r.vox.1.index = ds.map (fun d : Nat => (d : Int)))
    (hes : r.axes.map r.vox.1.size = es.map (fun e : Nat => (e : Int))) :
    (∀ ds', odoInc (zipPair ds es) = some ds' →
      r.inc.ok = true ∧
      r.axes.map r.inc.vox.1.index = ds'.map (fun d : Nat => (d : Int))) ∧
    (odoInc (zipPair ds es) = none → r.inc.ok = false) := by
  rcases haxes : r.axes with _ | ⟨a, rest⟩
  · exact absurd haxes hne
  · rw [haxes] at hds hes hnd hfrom
    have hfa : r.from_ = a := by rw [hfrom]; rfl
    subst hfa
    cases ds with
    | nil => simp at hds
    | cons d ds₀ =>
    cases es with
    | nil => simp at hes
    | cons e es₀ =>
    simp only [List.map_cons, List.cons.injEq] at hds hes
    obtain ⟨hda, hds₀⟩ := hds
    obtain ⟨hea, hes₀⟩ := hes
    obtain ⟨hat, hndt⟩ := List.nodup_cons.1 hnd
    have hlen : ds₀.length = es₀.length := by
      have h1 := congrArg List.length hds₀
      have h2 := congrArg List.length hes₀
      simp only [List.length_map] at h1 h2
      omega
    have hwa : (applyAll (inc_pos r.from_) r.vox).1.index r.from_ = (d : Int) + 1 := by
      show (inc_pos r.from_ r.vox.1).index r.from_ = _
      rw [inc_pos_index_self, hda]
    have hwt : rest.map (applyAll (inc_pos r.from_) r.vox).1.index =
        ds₀.map (fun x : Nat => (x : Int)) := by
      rw [← hds₀]
      refine List.map_congr_left (fun c hc => ?_)
      exact inc_pos_index_ne r.from_ r.vox.1 c (fun hcb => hat (hcb ▸ hc))
    have htail : r.axes.tail = rest := by rw [haxes]; rfl
    by_cases hc : d + 1 < e
    · have hcondI : (applyAll (inc_pos r.from_) r.vox).1.index r.from_ < r.size0 := by
        rw [hwa, hsz0, hea]
        exact_mod_cast hc
      have hinc : r.inc = { r with vox := applyAll (inc_pos r.from_) r.vox } := by
        simp only [LoopAlongDynamicAxes.Run.inc]
        rw [if_pos hcondI]
      have hodo : odoInc (zipPair (d :: ds₀) (e :: es₀)) = some ((d + 1) :: ds₀) := by
        simp only [zipPair, odoInc, if_pos hc]
        rw [zipPair_map_fst ds₀ es₀ hlen]
      constructor
      · intro ds' h
        rw [hodo] at h
        obtain rfl : (d + 1) :: ds₀ = ds' := by injection h
        refine ⟨by rw [hinc]; exact hok, ?_⟩
        rw [hinc, haxes]
        simp only [List.map_cons]
        rw [hwa, hwt]
        simp
      · intro h
        rw [hodo] at h
        cases h
    · have hcondI : ¬ ((applyAll (inc_pos r.from_) r.vox).1.index r.from_ < r.size0) := by
        rw [hwa, hsz0, hea]
        intro hcon
        exact hc (by exact_mod_cast hcon)
      have hinc : r.inc = { r with
          vox := (dynamicCarry (applyAll (inc_pos r.from_) r.vox) r.from_ r.axes.tail).1,
          ok := (dynamicCarry (applyAll (inc_pos r.from_) r.vox) r.from_ r.axes.tail).2 } := by
        simp only [LoopAlongDynamicAxes.Run.inc]
        rw [if_neg hcondI]
      have hws : rest.map (applyAll (inc_pos r.from_) r.vox).1.size =
          es₀.map (fun x : Nat => (x : Int)) := hes₀
      have hcs := dynamicCarry_spec rest (applyAll (inc_pos r.from_) r.vox) r.from_
        ds₀ es₀ hndt hat hwt hws
      have hodo : odoInc (zipPair (d :: ds₀) (e :: es₀)) =
          (odoInc (zipPair ds₀ es₀)).map (fun xs => 0 :: xs) := by
        simp only [zipPair, odoInc, if_neg hc]
      constructor
      · intro ds' h
        rw [hodo] at h
        cases hrec : odoInc (zipPair ds₀ es₀) with
        | none => rw [hrec] at h; cases h
        | some ds'' =>
            rw [hrec] at h
            simp only [Option.map_some'] at h
            obtain rfl : 0 :: ds'' = ds' := by injection h
            obtain ⟨hok2, hb0, hpos2⟩ := hcs.1 ds'' hrec
            rw [hinc, htail]
            refine ⟨hok2, ?_⟩
            rw [haxes]
            simp only [List.map_cons]
            rw [hb0, hpos2]
            norm_num
      · intro h
        rw [hodo] at h
        cases hrec : odoInc (zipPair ds₀ es₀) with
        | none =>
            rw [hinc, htail]
            exact hcs.2 hrec
        | some ds'' => rw [hrec] at h; cases h

theorem dynIter_spec (axes : List Nat) (vox : Views) (hne : axes ≠ [])
    (hnd : axes.Nodup) (hpos : ∀ a ∈ axes, 0 < vox.1.size a) :
    ∀ n, n < (extentsOf axes vox).prod →
      (dynIter axes vox n).ok = true ∧
      axes.map (dynIter axes vox n).vox.1.index =
        (natDigits (extentsOf axes vox) n).map (fun d : Nat => (d : Int)) := by
  intro n
  induction n with
  | zero =>
      intro _
      refine ⟨rfl, ?_⟩
      rw [natDigits_zero, List.map_replicate]
      refine List.eq_replicate_iff.2 ⟨by simp [extentsOf], fun b hb => ?_⟩
      obtain ⟨a, ha, rfl⟩ := List.mem_map.1 hb
      have h0 : (dynIter axes vox 0).vox.1.index a = 0 := foldl_set_index axes vox a ha
      rw [h0]
      norm_num
  | succ n ih =>
      intro hn
      have hnn : n < (extentsOf axes vox).prod := by omega
      obtain ⟨hok, hds⟩ := ih hnn
      have hfields := dynIter_fields axes vox n
      have hszc : (dynIter axes vox n).vox.1.size = vox.1.size :=
        (dynIter_ops axes vox hne n).get0_size
      have hsz0 : (dynIter axes vox n).size0 =
          (dynIter axes vox n).vox.1.size (dynIter axes vox n).from_ := by
        rw [hfields.2.2, hszc, hfields.2.1]
      have hds' : (dynIter axes vox n).axes.map (dynIter axes vox n).vox.1.index =
          (natDigits (extentsOf axes vox) n).map (fun d : Nat => (d : Int)) := by
        rw [hfields.1]; exact hds
      have hes' : (dynIter axes vox n).axes.map (dynIter axes vox n).vox.1.size =
          (extentsOf axes vox).map (fun e : Nat => (e : Int)) := by
        rw [hfields.1, hszc]
        exact extentsOf_cast axes vox hpos
      have hspec := dyn_inc_spec (dynIter axes vox n)
        (natDigits (extentsOf axes vox) n) (extentsOf axes vox)
        (by rw [hfields.1]; exact hne) (by rw [hfields.1]; exact hnd)
        (by rw [hfields.2.1, hfields.1]) hsz0 hok hds' hes'
      have hodo := odoInc_digits (extentsOf axes vox)
        (extentsOf_pos axes vox hpos) n hnn
      rw [if_pos hn] at hodo
      obtain ⟨hok1, hds1⟩ := hspec.1 (natDigits (extentsOf axes vox) (n + 1)) hodo
      rw [dynIter_succ]
      refine ⟨hok1, ?_⟩
      rw [hfields.1] at hds1
      exact hds1

theorem dynIter_exhaust (axes : List Nat) (vox : Views) (hne : axes ≠ [])
    (hnd : axes.Nodup) (hpos : ∀ a ∈ axes, 0 < vox.1.size a) :
    (dynIter axes vox (extentsOf axes vox).prod).ok = false := by
  have hN : 0 < (extentsOf axes vox).prod :=
    List.prod_pos (extentsOf_pos axes vox hpos)
  set N := (extentsOf axes vox).prod with hNdef
  have hlast : N - 1 < N := by omega
  obtain ⟨hok, hds⟩ := dynIter_spec axes vox hne hnd hpos (N - 1) hlast
  have hfields := dynIter_fields axes vox (N - 1)
  have hszc : (dynIter axes vox (N - 1)).vox.1.size = vox.1.size :=
    (dynIter_ops axes vox hne (N - 1)).get0_size
  have hsz0 : (dynIter axes vox (N - 1)).size0 =
      (dynIter axes vox (N - 1)).vox.1.size (dynIter axes vox (N - 1)).from_ := by
    rw [hfields.2.2, hszc, hfields.2.1]
  have hds' : (dynIter axes vox (N - 1)).axes.map (dynIter axes vox (N - 1)).vox.1.index =
      (natDigits (extentsOf axes vox) (N - 1)).map (fun d : Nat => (d : Int)) := by
    rw [hfields.1]; exact hds
  have hes' : (dynIter axes vox (N - 1)).axes.map (dynIter axes vox (N - 1)).vox.1.size =
      (extentsOf axes vox).map (fun e : Nat => (e : Int)) := by
    rw [hfields.1, hszc]
    exact extentsOf_cast axes vox hpos
  have hspec := dyn_inc_spec (dynIter axes vox (N - 1))
    (natDigits (extentsOf axes vox) (N - 1)) (extentsOf axes vox)
    (by rw [hfields.1]; exact hne) (by rw [hfields.1]; exact hnd)
    (by rw [hfields.2.1, hfields.1]) hsz0 hok hds' hes'
  have hodo := odoInc_digits (extentsOf axes vox)
    (extentsOf_pos axes vox hpos) (N - 1) hlast
  rw [if_neg (by omega)] at hodo
  have hfin := hspec.2 hodo
  have hsucc : N - 1 + 1 = N := by omega
  rw [← hsucc, dynIter_succ]
  exact hfin

/-! ## The axis-range cursor is the static-axes cursor over `[from, to)` -/

theorem range_inc_eq_static_inc (r : LoopAlongAxisRange.Run) (s : LoopAlongStaticAxes.Run)
    (hv : r.vox = s.vox) (hsz : r.size0 = s.size0) (hf : r.from_ = s.from_)
    (hok : r.ok = s.ok)
    (ht : s.axes.tail = List.range' (s.from_ + 1) (r.to_ - (s.from_ + 1))) :
    r.inc.vox = s.inc.vox ∧ r.inc.ok = s.inc.ok := by
  simp only [LoopAlongAxisRange.Run.inc, LoopAlongStaticAxes.Run.inc]
  rw [hv, hsz, hf, ht]
  by_cases hc : (applyAll (inc_pos s.from_) s.vox).1.index s.from_ < s.size0
  · rw [if_pos hc, if_pos hc]
    exact ⟨rfl, hok⟩
  · rw [if_neg hc, if_neg hc]
    rw [rangeCarry_eq_staticCarry]
    exact ⟨rfl, rfl⟩

theorem rangeAxes_headI (axis_from axis_to : Nat) (vox : Views)
    (hlt : axis_from < resolveTo axis_to vox) :
    (rangeAxes axis_from axis_to vox).headI = axis_from := by
  rw [rangeAxes,
    show resolveTo axis_to vox - axis_from = (resolveTo axis_to vox - (axis_from + 1)) + 1
      by omega,
    List.range'_succ]
  rfl

theorem rangeAxes_tail (axis_from axis_to : Nat) (vox : Views)
    (hlt : axis_from < resolveTo axis_to vox) :
    (rangeAxes axis_from axis_to vox).tail =
      List.range' (axis_from + 1) (resolveTo axis_to vox - (axis_from + 1)) := by
  rw [rangeAxes,
    show resolveTo axis_to vox - axis_from = (resolveTo axis_to vox - (axis_from + 1)) + 1
      by omega,
    List.range'_succ]
  rfl

theorem rangeIter_eq_statIter (axis_from axis_to : Nat) (vox : Views)
    (hlt : axis_from < resolveTo axis_to vox) (n : Nat) :
    (rangeIter axis_from axis_to vox n).vox =
      (statIter (rangeAxes axis_from axis_to vox) vox n).vox ∧
    (rangeIter axis_from axis_to vox n).ok =
      (statIter (rangeAxes axis_from axis_to vox) vox n).ok := by
  induction n with
  | zero => exact ⟨rfl, rfl⟩
  | succ n ih =>
      obtain ⟨hv, hk⟩ := ih
      have hfr := rangeIter_fields axis_from axis_to vox n
      have hfs := statIter_fields (rangeAxes axis_from axis_to vox) vox n
      rw [rangeIter_succ, statIter_succ]
      refine range_inc_eq_static_inc _ _ hv ?_ ?_ hk ?_
      · rw [hfr.2.2, hfs.2.2, rangeAxes_headI axis_from axis_to vox hlt]
      · rw [hfr.1, hfs.2.1, rangeAxes_headI axis_from axis_to vox hlt]
      · rw [hfs.1, hfs.2.1, rangeAxes_headI axis_from axis_to vox hlt, hfr.2.1]
        exact rangeAxes_tail axis_from axis_to vox hlt

/-! ## The single-axis cursor is a bounded counter -/

theorem singleIter_fields (axis : Nat) (vox : Views) (n : Nat) :
    (singleIter axis vox n).axis = axis ∧
    (singleIter axis vox n).size0 = vox.1.size axis := by
  induction n with
  | zero => exact ⟨rfl, rfl⟩
  | succ n ih => rw [singleIter_succ]; exact ih

theorem singleIter_index (axis : Nat) (vox : Views) (n : Nat) :
    (singleIter axis vox n).vox.1.index axis = (n : Int) := by
  induction n with
  | zero =>
      show (set_pos axis 0 vox.1).index axis = _
      rw [set_pos_index_self]
      norm_num
  | succ n ih =>
      rw [singleIter_succ]
      show (inc_pos (singleIter axis vox n).axis (singleIter axis vox n).vox.1).index axis = _
      rw [(singleIter_fields axis vox n).1, inc_pos_index_self, ih]
      push_cast
      ring

theorem singleIter_live (axis : Nat) (vox : Views) (n : Nat) :
    (singleIter axis vox n).live = true ↔ n < (vox.1.size axis).toNat := by
  rw [LoopAlongSingleAxis.Run.live]
  rw [show (get0 (singleIter axis vox n).vox).index (singleIter axis vox n).axis =
      (n : Int) by rw [(singleIter_fields axis vox n).1]; exact singleIter_index axis vox n]
  rw [(singleIter_fields axis vox n).2]
  rw [decide_eq_true_iff]
  exact Int.lt_toNat.symm

/-! ## Literal nested loops enumerate mixed-radix digits -/

theorem range_mul_map {α : Type} (e P : Nat) (f : Nat → α) :
    (List.range (e * P)).map f =
      (List.range P).flatMap (fun q => (List.range e).map (fun r => f (q * e + r))) := by
  induction P with
  | zero => simp
  | succ P ih =>
      rw [show e * (P + 1) = e * P + e by ring, List.range_add, List.map_append,
        ih, List.range_succ, List.flatMap_append]
      congr 1
      rw [List.map_map]
      simp only [List.flatMap_cons, List.flatMap_nil, List.append_nil]
      refine List.map_congr_left (fun r hr => ?_)
      show f (e * P + r) = f (P * e + r)
      rw [Nat.mul_comm]

theorem nestedLoops_digits (es : List Nat) :
    nestedLoops es = (List.range es.prod).map (natDigits es) := by
  induction es with
  | nil => simp [nestedLoops, natDigits]
  | cons e tl ih =>
      rw [nestedLoops, ih, List.prod_cons, range_mul_map e tl.prod (natDigits (e :: tl)),
        List.flatMap_map]
      refine List.flatMap_congr (fun q hq => ?_)
      refine List.map_congr_left (fun r hr => ?_)
      have hre : r < e := List.mem_range.1 hr
      have he : 0 < e := by omega
      show (r : Nat) :: natDigits tl q = natDigits (e :: tl) (q * e + r)
      simp only [natDigits]
      rw [Nat.mul_comm q e, Nat.mul_add_mod, Nat.mod_eq_of_lt hre, Nat.mul_add_div he,
        Nat.div_eq_of_lt hre, Nat.add_zero]

/-! ## The traversal is driven by the first view alone -/

theorem forall₂_map_both {R S : View → View → Prop} {l l' : List View}
    (f g : View → View) (h : List.Forall₂ R l l')
    (hf : ∀ v w, R v w → S (f v) (g w)) :
    List.Forall₂ S (l.map f) (l'.map g) := by
  induction h with
  | nil => exact List.Forall₂.nil
  | cons hab t ih => exact List.Forall₂.cons (hf _ _ hab) ih

theorem sameTraversal_applyAll_set (b : Nat) (i : Int) {vox vox' : Views}
    (h : SameTraversal vox vox') :
    SameTraversal (applyAll (set_pos b i) vox) (applyAll (set_pos b i) vox') := by
  refine ⟨?_, ?_⟩
  · show set_pos b i vox'.1 = set_pos b i vox.1
    rw [h.1]
  · exact forall₂_map_both _ _ h.2 (fun v w hvw => set_pos_index_congr b i v w hvw)

theorem sameTraversal_applyAll_inc (b : Nat) {vox vox' : Views}
    (h : SameTraversal vox vox') :
    SameTraversal (applyAll (inc_pos b) vox) (applyAll (inc_pos b) vox') := by
  refine ⟨?_, ?_⟩
  · show inc_pos b vox'.1 = inc_pos b vox.1
    rw [h.1]
  · exact forall₂_map_both _ _ h.2 (fun v w hvw => inc_pos_index_congr b v w hvw)

theorem foldl_set_st (axes : List Nat) :
    ∀ {vox vox' : Views}, SameTraversal vox vox' →
    SameTraversal (axes.foldl (fun w a => applyAll (set_pos a 0) w) vox)
      (axes.foldl (fun w a => applyAll (set_pos a 0) w) vox') := by
  induction axes with
  | nil => intro vox vox' h; exact h
  | cons a t ih =>
      intro vox vox' h
      rw [List.foldl_cons, List.foldl_cons]
      exact ih (sameTraversal_applyAll_set a 0 h)

theorem staticCarry_st (rest : List Nat) :
    ∀ {vox vox' : Views}, SameTraversal vox vox' →
    SameTraversal (staticCarry vox rest).1 (staticCarry vox' rest).1 ∧
    (staticCarry vox rest).2 = (staticCarry vox' rest).2 := by
  induction rest with
  | nil => intro vox vox' h; exact ⟨h, rfl⟩
  | cons b t ih =>
      intro vox vox' h
      have hst := sameTraversal_applyAll_inc b h
      have hcond : ((applyAll (inc_pos b) vox').1.index b < (applyAll (inc_pos b) vox').1.size b) ↔
          ((applyAll (inc_pos b) vox).1.index b < (applyAll (inc_pos b) vox).1.size b) := by
        rw [hst.1]
      simp only [staticCarry]
      by_cases hc : (applyAll (inc_pos b) vox).1.index b < (applyAll (inc_pos b) vox).1.size b
      · rw [if_pos hc, if_pos (hcond.2 hc)]
        exact ⟨hst, rfl⟩
      · rw [if_neg hc, if_neg (fun hcon => hc (hcond.1 hcon))]
        exact ih (sameTraversal_applyAll_set b 0 hst)

theorem dynamicCarry_st (rest : List Nat) :
    ∀ (prev : Nat) {vox vox' : Views}, SameTraversal vox vox' →
    SameTraversal (dynamicCarry vox prev rest).1 (dynamicCarry vox' prev rest).1 ∧
    (dynamicCarry vox prev rest).2 = (dynamicCarry vox' prev rest).2 := by
  induction rest with
  | nil => intro prev vox vox' h; exact ⟨h, rfl⟩
  | cons b t ih =>
      intro prev vox vox' h
      have hst := sameTraversal_applyAll_inc b (sameTraversal_applyAll_set prev 0 h)
      have hcond : ((applyAll (inc_pos b) (applyAll (set_pos prev 0) vox')).1.index b <
            (applyAll (inc_pos b) (applyAll (set_pos prev 0) vox')).1.size b) ↔
          ((applyAll (inc_pos b) (applyAll (set_pos prev 0) vox)).1.index b <
            (applyAll (inc_pos b) (applyAll (set_pos prev 0) vox)).1.size b) := by
        rw [hst.1]
      simp only [dynamicCarry]
      by_cases hc : (applyAll (inc_pos b) (applyAll (set_pos prev 0) vox)).1.index b <
          (applyAll (inc_pos b) (applyAll (set_pos prev 0) vox)).1.size b
      · rw [if_pos hc, if_pos (hcond.2 hc)]
        exact ⟨hst, rfl⟩
      · rw [if_neg hc, if_neg (fun hcon => hc (hcond.1 hcon))]
        exact ih b hst

theorem range_inc_st (r r' : LoopAlongAxisRange.Run)
    (hf : r'.from_ = r.from_) (ht : r'.to_ = r.to_) (hs : r'.size0 = r.size0)
    (hk : r'.ok = r.ok) (hv : SameTraversal r.vox r'.vox) :
    SameTraversal r.inc.vox r'.inc.vox ∧ r.inc.ok = r'.inc.ok := by
  simp only [LoopAlongAxisRange.Run.inc]
  rw [hf, ht, hs]
  have hst := sameTraversal_applyAll_inc r.from_ hv
  have hcond : ((applyAll (inc_pos r.from_) r'.vox).1.index r.from_ < r.size0) ↔
      ((applyAll (inc_pos r.from_) r.vox).1.index r.from_ < r.size0) := by
    rw [hst.1]
  by_cases hc : (applyAll (inc_pos r.from_) r.vox).1.index r.from_ < r.size0
  · rw [if_pos hc, if_pos (hcond.2 hc)]
    exact ⟨hst, hk.symm⟩
  · rw [if_neg hc, if_neg (fun hcon => hc (hcond.1 hcon))]
    rw [rangeCarry_eq_staticCarry, rangeCarry_eq_staticCarry]
    have := staticCarry_st (List.range' (r.from_ + 1) (r.to_ - (r.from_ + 1)))
      (sameTraversal_applyAll_set r.from_ 0 hst)
    exact ⟨this.1, this.2⟩

theorem static_inc_st (r r' : LoopAlongStaticAxes.Run)
    (ha : r'.axes = r.axes) (hf : r'.from_ = r.from_) (hs : r'.size0 = r.size0)
    (hk : r'.ok = r.ok) (hv : SameTraversal r.vox r'.vox) :
    SameTraversal r.inc.vox r'.inc.vox ∧ r.inc.ok = r'.inc.ok := by
  simp only [LoopAlongStaticAxes.Run.inc]
  rw [ha, hf, hs]
  have hst := sameTraversal_applyAll_inc r.from_ hv
  have hcond : ((applyAll (inc_pos r.from_) r'.vox).1.index r.from_ < r.size0) ↔
      ((applyAll (inc_pos r.from_) r.vox).1.index r.from_ < r.size0) := by
    rw [hst.1]
  by_cases hc : (applyAll (inc_pos r.from_) r.vox).1.index r.from_ < r.size0
  · rw [if_pos hc, if_pos (hcond.2 hc)]
    exact ⟨hst, hk.symm⟩
  · rw [if_neg hc, if_neg (fun hcon => hc (hcond.1 hcon))]
    have := staticCarry_st r.axes.tail (sameTraversal_applyAll_set r.from_ 0 hst)
    exact ⟨this.1, this.2⟩

theorem dyn_inc_st (r r' : LoopAlongDynamicAxes.Run)
    (ha : r'.axes = r.axes) (hf : r'.from_ = r.from_) (hs : r'.size0 = r.size0)
    (hk : r'.ok = r.ok) (hv : SameTraversal r.vox r'.vox) :
    SameTraversal r.inc.vox r'.inc.vox ∧ r.inc.ok = r'.inc.ok := by
  simp only [LoopAlongDynamicAxes.Run.inc]
  rw [ha, hf, hs]
  have hst := sameTraversal_applyAll_inc r.from_ hv
  have hcond : ((applyAll (inc_pos r.from_) r'.vox).1.index r.from_ < r.size0) ↔
      ((applyAll (inc_pos r.from_) r.vox).1.index r.from_ < r.size0) := by
    rw [hst.1]
  by_cases hc : (applyAll (inc_pos r.from_) r.vox).1.index r.from_ < r.size0
  · rw [if_pos hc, if_pos (hcond.2 hc)]
    exact ⟨hst, hk.symm⟩
  · rw [if_neg hc, if_neg (fun hcon => hc (hcond.1 hcon))]
    have := dynamicCarry_st r.axes.tail r.from_ hst
    exact ⟨this.1, this.2⟩

theorem rangeIter_st (axis_from axis_to : Nat) (vox vox' : Views)
    (h : SameTraversal vox vox') (n : Nat) :
    SameTraversal (rangeIter axis_from axis_to vox n).vox
      (rangeIter axis_from axis_to vox' n).vox ∧
    (rangeIter axis_from axis_to vox n).ok = (rangeIter axis_from axis_to vox' n).ok := by
  have hndim : vox'.1.ndim = vox.1.ndim := by rw [h.1]
  have hres : resolveTo axis_to vox' = resolveTo axis_to vox := by
    rw [resolveTo, resolveTo, hndim]
  induction n with
  | zero =>
      constructor
      · show SameTraversal
          ((List.range' axis_from (resolveTo axis_to vox - axis_from)).foldl
            (fun w n => applyAll (set_pos n 0) w) vox)
          ((List.range' axis_from (resolveTo axis_to vox' - axis_from)).foldl
            (fun w n => applyAll (set_pos n 0) w) vox')
        rw [hres]
        exact foldl_set_st _ h
      · rfl
  | succ n ih =>
      rw [rangeIter_succ, rangeIter_succ]
      have hfr := rangeIter_fields axis_from axis_to vox n
      have hfr' := rangeIter_fields axis_from axis_to vox' n
      refine range_inc_st _ _ ?_ ?_ ?_ ih.2.symm ih.1
      · rw [hfr.1, hfr'.1]
      · rw [hfr.2.1, hfr'.2.1, hres]
      · rw [hfr.2.2, hfr'.2.2]
        exact congrArg (fun v : View => v.size _) h.1

theorem statIter_st (axes : List Nat) (vox vox' : Views)
    (h : SameTraversal vox vox') (n : Nat) :
    SameTraversal (statIter axes vox n).vox (statIter axes vox' n).vox ∧
    (statIter axes vox n).ok = (statIter axes vox' n).ok := by
  induction n with
  | zero =>
      refine ⟨foldl_set_st axes h, rfl⟩
  | succ n ih =>
      rw [statIter_succ, statIter_succ]
      have hfr := statIter_fields axes vox n
      have hfr' := statIter_fields axes vox' n
      refine static_inc_st _ _ ?_ ?_ ?_ ih.2.symm ih.1
      · rw [hfr.1, hfr'.1]
      · rw [hfr.2.1, hfr'.2.1]
      · rw [hfr.2.2, hfr'.2.2]
        exact congrArg (fun v : View => v.size _) h.1

theorem dynIter_st (axes : List Nat) (vox vox' : Views)
    (h : SameTraversal vox vox') (n : Nat) :
    SameTraversal (dynIter axes vox n).vox (dynIter axes vox' n).vox ∧
    (dynIter axes vox n).ok = (dynIter axes vox' n).ok := by
  induction n with
  | zero =>
      refine ⟨foldl_set_st axes h, rfl⟩
  | succ n ih =>
      rw [dynIter_succ, dynIter_succ]
      have hfr := dynIter_fields axes vox n
      have hfr' := dynIter_fields axes vox' n
      refine dyn_inc_st _ _ ?_ ?_ ?_ ih.2.symm ih.1
      · rw [hfr.1, hfr'.1]
      · rw [hfr.2.1, hfr'.2.1]
      · rw [hfr.2.2, hfr'.2.2]
        exact congrArg (fun v : View => v.size _) h.1

theorem singleIter_st (axis : Nat) (vox vox' : Views)
    (h : SameTraversal vox vox') (n : Nat) :
    SameTraversal (singleIter axis vox n).vox (singleIter axis vox' n).vox ∧
    (singleIter axis vox n).live = (singleIter axis vox' n).live := by
  have hvx : ∀ m, SameTraversal (singleIter axis vox m).vox (singleIter axis vox' m).vox := by
    intro m
    induction m with
    | zero => exact sameTraversal_applyAll_set axis 0 h
    | succ m ihm =>
        rw [singleIter_succ, singleIter_succ]
        show SameTraversal
          (applyAll (inc_pos (singleIter axis vox m).axis) (singleIter axis vox m).vox)
          (applyAll (inc_pos (singleIter axis vox' m).axis) (singleIter axis vox' m).vox)
        rw [(singleIter_fields axis vox m).1, (singleIter_fields axis vox' m).1]
        exact sameTraversal_applyAll_inc axis ihm
  refine ⟨hvx n, ?_⟩
  rw [LoopAlongSingleAxis.Run.live, LoopAlongSingleAxis.Run.live]
  rw [(singleIter_fields axis vox n).1, (singleIter_fields axis vox' n).1,
    (singleIter_fields axis vox n).2, (singleIter_fields axis vox' n).2]
  rw [show (get0 (singleIter axis vox' n).vox) = (get0 (singleIter axis vox n).vox) from
    (hvx n).1, h.1]

/-! ## Synchronization of the views, and the progress decorator -/

theorem statIter_agree (axes : List Nat) (vox : Views) (hne : axes ≠ []) (a : Nat)
    (ha : a ∈ axes) (n : Nat) : AgreeOn (statIter axes vox n).vox a := by
  induction n with
  | zero => exact foldl_set_agree axes vox a ha
  | succ n ih =>
      rw [statIter_succ]
      have hfrom : (statIter axes vox n).from_ ∈ (statIter axes vox n).axes := by
        rw [(statIter_fields axes vox n).1, (statIter_fields axes vox n).2.1]
        exact headI_mem_of_ne_nil hne
      exact (static_inc_ops _ hfrom).agreeOn a ih

theorem dynIter_agree (axes : List Nat) (vox : Views) (hne : axes ≠ []) (a : Nat)
    (ha : a ∈ axes) (n : Nat) : AgreeOn (dynIter axes vox n).vox a := by
  induction n with
  | zero => exact foldl_set_agree axes vox a ha
  | succ n ih =>
      rw [dynIter_succ]
      have hfrom : (dynIter axes vox n).from_ ∈ (dynIter axes vox n).axes := by
        rw [(dynIter_fields axes vox n).1, (dynIter_fields axes vox n).2.1]
        exact headI_mem_of_ne_nil hne
      exact (dyn_inc_ops _ hfrom).agreeOn a ih

theorem rangeIter_agree (axis_from axis_to : Nat) (vox : Views) (a : Nat)
    (ha : axis_from ≤ a ∧ a < resolveTo axis_to vox) (n : Nat) :
    AgreeOn (rangeIter axis_from axis_to vox n).vox a := by
  induction n with
  | zero =>
      refine foldl_set_agree _ vox a ?_
      rw [List.mem_range'_1]
      rw [resolveTo] at ha
      omega
  | succ n ih =>
      rw [rangeIter_succ]
      exact (range_inc_ops _).agreeOn a ih

theorem rangeProgIter_base (axis_from axis_to : Nat) (vox : Views) (n : Nat) :
    (rangeProgIter axis_from axis_to vox n).base = rangeIter axis_from axis_to vox n := by
  induction n with
  | zero => rfl
  | succ n ih =>
      rw [rangeProgIter_succ, rangeIter_succ]
      show (rangeProgIter axis_from axis_to vox n).base.inc = _
      rw [ih]

theorem rangeProgIter_count (axis_from axis_to : Nat) (vox : Views) (n : Nat) :
    (rangeProgIter axis_from axis_to vox n).progressCount = n := by
  induction n with
  | zero => rfl
  | succ n ih =>
      rw [rangeProgIter_succ]
      show (rangeProgIter axis_from axis_to vox n).progressCount + 1 = n + 1
      rw [ih]

theorem rangeProgIter_total (axis_from axis_to : Nat) (vox : Views) (n : Nat) :
    (rangeProgIter axis_from axis_to vox n).progressTotal =
      voxel_count vox.1 axis_from axis_to := by
  induction n with
  | zero => rfl
  | succ n ih =>
      rw [rangeProgIter_succ]
      show (rangeProgIter axis_from axis_to vox n).progressTotal = _
      exact ih

theorem voxel_count_eq_prod (axis_from axis_to : Nat) (vox : Views)
    (hpos : ∀ a ∈ rangeAxes axis_from axis_to vox, 0 < vox.1.size a) :
    voxel_count vox.1 axis_from axis_to =
      ((extentsOf (rangeAxes axis_from axis_to vox) vox).prod : Int) := by
  rw [voxel_count]
  have hx : (List.range' axis_from ((if axis_to = 0 then vox.1.ndim else axis_to) - axis_from))
      = rangeAxes axis_from axis_to vox := rfl
  rw [hx, extentsOf_cast (rangeAxes axis_from axis_to vox) vox hpos]
  rw [← Nat.cast_list_prod]

/-! ## Claim theorems -/

theorem rangeAxes_ne_nil (axis_from axis_to : Nat) (vox : Views)
    (hlt : axis_from < resolveTo axis_to vox) :
    rangeAxes axis_from axis_to vox ≠ [] := by
  intro hcon
  have hlen : (rangeAxes axis_from axis_to vox).length =
      resolveTo axis_to vox - axis_from := by
    rw [rangeAxes]; simp
  rw [hcon] at hlen
  simp at hlen
  omega

theorem rangeAxes_nodup (axis_from axis_to : Nat) (vox : Views) :
    (rangeAxes axis_from axis_to vox).Nodup :=
  List.nodup_range' axis_from _

/-- C8: for an axis-range request `[from, to)` the selected axis order is
exactly `[from, from+1, …, to-1]`: the resolved `to` stored in the cursor is
`axis_to` itself unless `axis_to = 0`, in which case it is the first view's
axis count, as resolved at cursor construction; and the range cursor performs
exactly the traversal of the static-axes cursor run over the explicit list
`[from, …, to-1]`. -/
theorem axis_range_selection (axis_from axis_to : Nat) (vox : Views)
    (hlt : axis_from < resolveTo axis_to vox) :
    (LoopAlongAxisRange.Run.init axis_from axis_to vox).to_ =
      (if axis_to = 0 then (get0 vox).ndim else axis_to) ∧
    (LoopAlongAxisRange.Run.init axis_from axis_to vox).from_ = axis_from ∧
    rangeAxes axis_from axis_to vox =
      List.range' axis_from (resolveTo axis_to vox - axis_from) ∧
    (∀ n : Nat,
      (rangeIter axis_from axis_to vox n).vox =
        (statIter (rangeAxes axis_from axis_to vox) vox n).vox ∧
      (rangeIter axis_from axis_to vox n).ok =
        (statIter (rangeAxes axis_from axis_to vox) vox n).ok) :=
  ⟨rfl, rfl, rfl, rangeIter_eq_statIter axis_from axis_to vox hlt⟩

/-- C8 witness: the range request `[1, 0)` over a 3-axis view resolves `to`
to the axis count 3 and selects exactly the axes `[1, 2]`. -/
theorem axis_range_selection_witness :
    (1 < resolveTo 0 (mkView [2, 2, 2] 0, [])) ∧
    (LoopAlongAxisRange.Run.init 1 0 (mkView [2, 2, 2] 0, [])).to_ = 3 ∧
    rangeAxes 1 0 (mkView [2, 2, 2] 0, []) = [1, 2] ∧
    (rangeIter 1 0 (mkView [2, 2, 2] 0, []) 2).vox =
      (statIter (rangeAxes 1 0 (mkView [2, 2, 2] 0, [])) (mkView [2, 2, 2] 0, []) 2).vox := by
  refine ⟨by decide, ?_, by decide, ?_⟩
  · exact (axis_range_selection 1 0 (mkView [2, 2, 2] 0, []) (by decide)).1
  · exact ((axis_range_selection 1 0 (mkView [2, 2, 2] 0, []) (by decide)).2.2.2 2).1

/-- C9: the liveness check of every cursor kind is pure — evaluating it
returns the same boolean however often it is repeated, and modifies neither
the view positions, nor the cursor state (`ok` flag, cached extent), nor the
progress count. -/
theorem liveness_check_pure :
    (∀ r : LoopAlongAxisRange.Run, r.observe.2 = r ∧ r.observe.1 = r.live ∧
      r.observe.2.observe.1 = r.observe.1) ∧
    (∀ r : LoopAlongSingleAxis.Run, r.observe.2 = r ∧ r.observe.1 = r.live ∧
      r.observe.2.observe.1 = r.observe.1) ∧
    (∀ r : LoopAlongStaticAxes.Run, r.observe.2 = r ∧ r.observe.1 = r.live ∧
      r.observe.2.observe.1 = r.observe.1) ∧
    (∀ r : LoopAlongDynamicAxes.Run, r.observe.2 = r ∧ r.observe.1 = r.live ∧
      r.observe.2.observe.1 = r.observe.1) ∧
    (∀ r : LoopAlongAxisRangeProgress.Run, r.observe.2 = r ∧ r.observe.1 = r.live ∧
      r.observe.2.progressCount = r.progressCount ∧ r.observe.2.base = r.base) :=
  ⟨fun _ => ⟨rfl, rfl, rfl⟩, fun _ => ⟨rfl, rfl, rfl⟩, fun _ => ⟨rfl, rfl, rfl⟩,
    fun _ => ⟨rfl, rfl, rfl⟩, fun _ => ⟨rfl, rfl, rfl, rfl⟩⟩

/-- C10: construction and every advance touch only the selected axes — on
every view, the position of every axis outside the selection is exactly what
it was before the cursor was built, after any number of advances. -/
theorem nonselected_axes_unchanged (axis_from axis_to : Nat) (axes : List Nat)
    (vox : Views) (n : Nat) (a : Nat) :
    (axis_from < resolveTo axis_to vox →
      ¬ (axis_from ≤ a ∧ a < resolveTo axis_to vox) →
      UnchangedAt vox (rangeIter axis_from axis_to vox n).vox a) ∧
    (axes ≠ [] → a ∉ axes → UnchangedAt vox (dynIter axes vox n).vox a) ∧
    (axes ≠ [] → a ∉ axes → UnchangedAt vox (statIter axes vox n).vox a) := by
  refine ⟨fun hlt hout => ?_, fun hne hout => ?_, fun hne hout => ?_⟩
  · exact (rangeIter_ops axis_from axis_to vox hlt n).unchanged a hout
  · exact (dynIter_ops axes vox hne n).unchanged a hout
  · exact (statIter_ops axes vox hne n).unchanged a hout

/-- C10 witness: iterating axes `[0, 1]` of a 3-axis image pair started at
position 5 on every axis leaves axis 2 at 5 on both views after 3 advances. -/
theorem nonselected_axes_unchanged_witness :
    (¬ (0 ≤ 2 ∧ 2 < resolveTo 2 (mkView [2, 3, 4] 5, [mkView [2, 3, 4] 5]))) ∧
    UnchangedAt (mkView [2, 3, 4] 5, [mkView [2, 3, 4] 5])
      (rangeIter 0 2 (mkView [2, 3, 4] 5, [mkView [2, 3, 4] 5]) 3).vox 2 ∧
    UnchangedAt (mkView [2, 3, 4] 5, [mkView [2, 3, 4] 5])
      (dynIter [0, 1] (mkView [2, 3, 4] 5, [mkView [2, 3, 4] 5]) 3).vox 2 := by
  refine ⟨by decide, ?_, ?_⟩
  · exact (nonselected_axes_unchanged 0 2 [0, 1]
      (mkView [2, 3, 4] 5, [mkView [2, 3, 4] 5]) 3 2).1 (by decide) (by decide)
  · exact (nonselected_axes_unchanged 0 2 [0, 1]
      (mkView [2, 3, 4] 5, [mkView [2, 3, 4] 5]) 3 2).2.1 (by decide) (by decide)

/-- C5: all views stay in lock-step — construction sets every selected axis
to 0 on every view, and after any number of advances every view holds the
same position as the first view on every selected axis, since every advance
applies the same `set_pos` / `inc_pos` functors to every view. -/
theorem views_synchronized (axis_from axis_to : Nat) (axes : List Nat)
    (vox : Views) (n : Nat) (a : Nat) :
    (axis_from ≤ a → a < resolveTo axis_to vox →
      AgreeOn (rangeIter axis_from axis_to vox n).vox a) ∧
    (axes ≠ [] → a ∈ axes → AgreeOn (dynIter axes vox n).vox a) ∧
    (axes ≠ [] → a ∈ axes → AgreeOn (statIter axes vox n).vox a) ∧
    (a ∈ axes →
      (dynIter axes vox 0).vox.1.index a = 0 ∧
      ∀ w ∈ (dynIter axes vox 0).vox.2, w.index a = 0) ∧
    (axis_from ≤ a → a < resolveTo axis_to vox →
      (rangeIter axis_from axis_to vox 0).vox.1.index a = 0 ∧
      ∀ w ∈ (rangeIter axis_from axis_to vox 0).vox.2, w.index a = 0) := by
  refine ⟨fun h1 h2 => ?_, fun hne ha => ?_, fun hne ha => ?_, fun ha => ?_,
    fun h1 h2 => ?_⟩
  · exact rangeIter_agree axis_from axis_to vox a ⟨h1, h2⟩ n
  · exact dynIter_agree axes vox hne a ha n
  · exact statIter_agree axes vox hne a ha n
  · refine ⟨foldl_set_index axes vox a ha, fun w hw => ?_⟩
    have hagree := foldl_set_agree axes vox a ha w hw
    rw [hagree]
    exact foldl_set_index axes vox a ha
  · have hmem : a ∈ List.range' axis_from (resolveTo axis_to vox - axis_from) := by
      rw [List.mem_range'_1]
      omega
    refine ⟨foldl_set_index _ vox a hmem, fun w hw => ?_⟩
    have hagree := foldl_set_agree _ vox a hmem w hw
    rw [hagree]
    exact foldl_set_index _ vox a hmem

/-- C5 witness: for the range selection `[0, 2)` and dynamic selection
`[0, 1]` over a pair of 2×3 views, the views agree on both selected axes at
construction (position 0) and after 3 advances. -/
theorem views_synchronized_witness :
    (0 ≤ 1 ∧ 1 < resolveTo 2 exVox) ∧
    AgreeOn (rangeIter 0 2 exVox 3).vox 1 ∧
    AgreeOn (dynIter [0, 1] exVox 3).vox 1 ∧
    ((dynIter [0, 1] exVox 0).vox.1.index 1 = 0 ∧
      ∀ w ∈ (dynIter [0, 1] exVox 0).vox.2, w.index 1 = 0) := by
  refine ⟨by decide, ?_, ?_, ?_⟩
  · exact (views_synchronized 0 2 [0, 1] exVox 3 1).1 (by decide) (by decide)
  · exact (views_synchronized 0 2 [0, 1] exVox 3 1).2.1 (by decide) (by decide)
  · exact (views_synchronized 0 2 [0, 1] exVox 0 1).2.2.2.1 (by decide)

/-- C7: the traversal is determined by the first view alone — for two view
tuples with an identical first view and identical positions on the remaining
views (whose extents and axis counts may differ arbitrarily), every cursor
kind produces, after any number of advances, identical liveness outcomes and
identical positions on every view; the extents of views other than the first
are never consulted. -/
theorem first_view_determines (axis_from axis_to axis : Nat) (axes : List Nat)
    (vox vox' : Views) (h : SameTraversal vox vox') (n : Nat) :
    (SameTraversal (rangeIter axis_from axis_to vox n).vox
        (rangeIter axis_from axis_to vox' n).vox ∧
      (rangeIter axis_from axis_to vox n).ok = (rangeIter axis_from axis_to vox' n).ok) ∧
    (SameTraversal (statIter axes vox n).vox (statIter axes vox' n).vox ∧
      (statIter axes vox n).ok = (statIter axes vox' n).ok) ∧
    (SameTraversal (dynIter axes vox n).vox (dynIter axes vox' n).vox ∧
      (dynIter axes vox n).ok = (dynIter axes vox' n).ok) ∧
    (SameTraversal (singleIter axis vox n).vox (singleIter axis vox' n).vox ∧
      (singleIter axis vox n).live = (singleIter axis vox' n).live) :=
  ⟨rangeIter_st axis_from axis_to vox vox' h n, statIter_st axes vox vox' h n,
    dynIter_st axes vox vox' h n, singleIter_st axis vox vox' h n⟩

/-- C7 witness: a 2×3 pair whose second view is replaced by a 9×9 view at the
same starting positions yields identical liveness and positions after 4
advances of the range cursor over `[0, 2)`. -/
theorem first_view_determines_witness :
    SameTraversal exVox (mkView [2, 3] 0, [mkView [9, 9] 0]) ∧
    (SameTraversal (rangeIter 0 2 exVox 4).vox
        (rangeIter 0 2 (mkView [2, 3] 0, [mkView [9, 9] 0]) 4).vox ∧
      (rangeIter 0 2 exVox 4).ok =
        (rangeIter 0 2 (mkView [2, 3] 0, [mkView [9, 9] 0]) 4).ok) := by
  have hst : SameTraversal exVox (mkView [2, 3] 0, [mkView [9, 9] 0]) :=
    ⟨rfl, List.Forall₂.cons rfl List.Forall₂.nil⟩
  exact ⟨hst, (first_view_determines 0 2 0 [0, 1] exVox
    (mkView [2, 3] 0, [mkView [9, 9] 0]) hst 4).1⟩

theorem rangeIter_exhaust (axis_from axis_to : Nat) (vox : Views)
    (hlt : axis_from < resolveTo axis_to vox)
    (hpos : ∀ a ∈ rangeAxes axis_from axis_to vox, 0 < vox.1.size a) :
    (∀ n, n < (extentsOf (rangeAxes axis_from axis_to vox) vox).prod →
      (rangeIter axis_from axis_to vox n).ok = true) ∧
    (rangeIter axis_from axis_to vox
      (extentsOf (rangeAxes axis_from axis_to vox) vox).prod).ok = false := by
  have hne := rangeAxes_ne_nil axis_from axis_to vox hlt
  have hnd := rangeAxes_nodup axis_from axis_to vox
  constructor
  · intro n hn
    rw [(rangeIter_eq_statIter axis_from axis_to vox hlt n).2]
    exact (statIter_spec _ vox hne hnd hpos n hn).1
  · rw [(rangeIter_eq_statIter axis_from axis_to vox hlt _).2]
    exact statIter_exhaust _ vox hne hnd hpos

/-- C2: for any selected axis order with distinct axes and positive extents,
the sequence of position tuples observed at the Live liveness checks equals
the sequence produced by literal nested loops over those extents with the
first listed axis innermost (fastest-varying); the cursor is Live for exactly
the product-many steps and Exhausted immediately after. -/
theorem lexicographic_order (axes : List Nat) (vox : Views) (hne : axes ≠ [])
    (hnd : axes.Nodup) (hpos : ∀ a ∈ axes, 0 < vox.1.size a) :
    statVisited axes vox (extentsOf axes vox).prod =
      (nestedLoops (extentsOf axes vox)).map (List.map (fun d : Nat => (d : Int))) ∧
    (∀ n, n < (extentsOf axes vox).prod → (statIter axes vox n).ok = true) ∧
    (statIter axes vox (extentsOf axes vox).prod).ok = false ∧
    (∀ axis_from axis_to : Nat, axis_from < resolveTo axis_to vox →
      ∀ k, posList (rangeAxes axis_from axis_to vox)
          (rangeIter axis_from axis_to vox k).vox =
        posList (rangeAxes axis_from axis_to vox)
          (statIter (rangeAxes axis_from axis_to vox) vox k).vox) := by
  refine ⟨?_, fun n hn => (statIter_spec axes vox hne hnd hpos n hn).1,
    statIter_exhaust axes vox hne hnd hpos, fun axis_from axis_to hlt k => ?_⟩
  · rw [statVisited, nestedLoops_digits, List.map_map]
    refine List.map_congr_left (fun k hk => ?_)
    have hkN := List.mem_range.1 hk
    exact (statIter_spec axes vox hne hnd hpos k hkN).2
  · rw [posList, posList, (rangeIter_eq_statIter axis_from axis_to vox hlt k).1]

/-- C2 witness: axes `[0, 1]` with extents `[2, 3]` visit exactly
(0,0), (1,0), (0,1), (1,1), (0,2), (1,2) and exhaust after 6 advances. -/
theorem lexicographic_order_witness :
    (([0, 1] : List Nat) ≠ [] ∧ ([0, 1] : List Nat).Nodup ∧
      (∀ a ∈ ([0, 1] : List Nat), 0 < exVox.1.size a)) ∧
    statVisited [0, 1] exVox (extentsOf [0, 1] exVox).prod =
      (nestedLoops (extentsOf [0, 1] exVox)).map (List.map (fun d : Nat => (d : Int))) ∧
    statVisited [0, 1] exVox 6 =
      [[0, 0], [1, 0], [0, 1], [1, 1], [0, 2], [1, 2]] ∧
    (statIter [0, 1] exVox 6).ok = false := by
  refine ⟨⟨by decide, by decide, by decide⟩, ?_, by decide, ?_⟩
  · exact (lexicographic_order [0, 1] exVox (by decide) (by decide) (by decide)).1
  · have h := (lexicographic_order [0, 1] exVox (by decide) (by decide) (by decide)).2.2.1
    have hp : (extentsOf [0, 1] exVox).prod = 6 := by decide
    rw [hp] at h
    exact h

/-- C3: over the same distinct-axis list with positive extents, the
dynamic-axis-list cursor (which zeroes the axis preceding the one currently
rolling over inside the carry loop) visits exactly the same sequence of Live
position tuples as the static-axis-list cursor (which zeroes each rolled-over
axis before moving on): at every Live step all selected-axis positions
coincide — every rolled-over axis reads 0 — and both cursors exhaust after
exactly the same number of advances, so no tuple is duplicated or skipped. -/
theorem dynamic_matches_static (axes : List Nat) (vox : Views) (hne : axes ≠ [])
    (hnd : axes.Nodup) (hpos : ∀ a ∈ axes, 0 < vox.1.size a) :
    (∀ n, n < (extentsOf axes vox).prod →
      (dynIter axes vox n).ok = true ∧ (statIter axes vox n).ok = true ∧
      posList axes (dynIter axes vox n).vox = posList axes (statIter axes vox n).vox) ∧
    dynVisited axes vox (extentsOf axes vox).prod =
      statVisited axes vox (extentsOf axes vox).prod ∧
    (dynIter axes vox (extentsOf axes vox).prod).ok = false ∧
    (statIter axes vox (extentsOf axes vox).prod).ok = false := by
  have hmain : ∀ n, n < (extentsOf axes vox).prod →
      (dynIter axes vox n).ok = true ∧ (statIter axes vox n).ok = true ∧
      posList axes (dynIter axes vox n).vox = posList axes (statIter axes vox n).vox := by
    intro n hn
    obtain ⟨hok1, hp1⟩ := dynIter_spec axes vox hne hnd hpos n hn
    obtain ⟨hok2, hp2⟩ := statIter_spec axes vox hne hnd hpos n hn
    refine ⟨hok1, hok2, ?_⟩
    rw [posList, posList]
    rw [hp1, hp2]
  refine ⟨hmain, ?_, dynIter_exhaust axes vox hne hnd hpos,
    statIter_exhaust axes vox hne hnd hpos⟩
  rw [dynVisited, statVisited]
  refine List.map_congr_left (fun k hk => ?_)
  exact (hmain k (List.mem_range.1 hk)).2.2

/-- C3 witness: over the caller-ordered list `[1, 0]` with extents 2×3 the
dynamic and static cursors visit identical Live sequences and exhaust
together. -/
theorem dynamic_matches_static_witness :
    (([1, 0] : List Nat) ≠ [] ∧ ([1, 0] : List Nat).Nodup ∧
      (∀ a ∈ ([1, 0] : List Nat), 0 < exVox.1.size a)) ∧
    dynVisited [1, 0] exVox (extentsOf [1, 0] exVox).prod =
      statVisited [1, 0] exVox (extentsOf [1, 0] exVox).prod ∧
    (dynIter [1, 0] exVox (extentsOf [1, 0] exVox).prod).ok = false := by
  refine ⟨⟨by decide, by decide, by decide⟩, ?_, ?_⟩
  · exact (dynamic_matches_static [1, 0] exVox (by decide) (by decide) (by decide)).2.1
  · exact (dynamic_matches_static [1, 0] exVox (by decide) (by decide) (by decide)).2.2.1

/-- C1 counterexample: for the axis-range selection `[0, 1)` over a view of
extent 0, the claim requires liveness to be false before any advance (zero
iterations) and the number of advances until Exhausted to equal the product
of extents, which is 0; but the cursor is Live at construction and becomes
Exhausted only after 1 advance. -/
theorem advance_count_zero_extent_cex :
    (z0Vox.1.size 0 = 0) ∧
    (extentsOf (rangeAxes 0 1 z0Vox) z0Vox).prod = 0 ∧
    (LoopAlongAxisRange.Run.init 0 1 z0Vox).live = true ∧
    (rangeIter 0 1 z0Vox 0).ok = true ∧
    (rangeIter 0 1 z0Vox 1).ok = false := by
  decide

/-- C1 (amended): the single-axis cursor is Live after `n` advances exactly
while `n` is below the axis extent — so it advances extent-many times until
Exhausted and performs zero iterations iff the extent is 0; the static,
dynamic and range cursors, when every selected extent is positive, are Live
for exactly product-of-extents many advances and Exhausted immediately after;
but unlike the single-axis cursor they set `ok = true` unconditionally at
construction, so with a zero extent they are still Live before the first
advance rather than performing zero iterations. -/
theorem advance_count (axis axis_from axis_to : Nat) (axes : List Nat) (vox : Views) :
    (∀ n, (singleIter axis vox n).live = true ↔ n < (vox.1.size axis).toNat) ∧
    (axes ≠ [] → axes.Nodup → (∀ a ∈ axes, 0 < vox.1.size a) →
      (∀ n, n < (extentsOf axes vox).prod → (statIter axes vox n).ok = true) ∧
      (statIter axes vox (extentsOf axes vox).prod).ok = false ∧
      (∀ n, n < (extentsOf axes vox).prod → (dynIter axes vox n).ok = true) ∧
      (dynIter axes vox (extentsOf axes vox).prod).ok = false) ∧
    (axis_from < resolveTo axis_to vox →
      (∀ a ∈ rangeAxes axis_from axis_to vox, 0 < vox.1.size a) →
      (∀ n, n < (extentsOf (rangeAxes axis_from axis_to vox) vox).prod →
        (rangeIter axis_from axis_to vox n).ok = true) ∧
      (rangeIter axis_from axis_to vox
        (extentsOf (rangeAxes axis_from axis_to vox) vox).prod).ok = false) ∧
    ((LoopAlongAxisRange.Run.init axis_from axis_to vox).ok = true ∧
      (LoopAlongStaticAxes.Run.init axes vox).ok = true ∧
      (LoopAlongDynamicAxes.Run.init axes vox).ok = true) := by
  refine ⟨singleIter_live axis vox, fun hne hnd hpos => ?_, fun hlt hpos => ?_,
    rfl, rfl, rfl⟩
  · exact ⟨fun n hn => (statIter_spec axes vox hne hnd hpos n hn).1,
      statIter_exhaust axes vox hne hnd hpos,
      fun n hn => (dynIter_spec axes vox hne hnd hpos n hn).1,
      dynIter_exhaust axes vox hne hnd hpos⟩
  · exact rangeIter_exhaust axis_from axis_to vox hlt hpos

/-- C1 witness: for the 2×3 image pair, the single-axis cursor on axis 0 is
Live after 1 advance (1 < 2), the static cursor over `[0, 1]` exhausts after
exactly 6 advances, and so does the range cursor over `[0, 2)`. -/
theorem advance_count_witness :
    ((singleIter 0 exVox 1).live = true ↔ 1 < (exVox.1.size 0).toNat) ∧
    (statIter [0, 1] exVox (extentsOf [0, 1] exVox).prod).ok = false ∧
    (rangeIter 0 2 exVox (extentsOf (rangeAxes 0 2 exVox) exVox).prod).ok = false := by
  refine ⟨(advance_count 0 0 2 [0, 1] exVox).1 1, ?_, ?_⟩
  · exact ((advance_count 0 0 2 [0, 1] exVox).2.1 (by decide) (by decide) (by decide)).2.1
  · exact ((advance_count 0 0 2 [0, 1] exVox).2.2.1 (by decide) (by decide)).2

/-- C6 counterexample: with a zero-extent axis the precomputed progress total
(the product of the selected extents) is 0, yet the decorated range cursor is
Live at construction and performs one advance before exhaustion, so at
Exhausted the counter holds 1, exceeding the total. -/
theorem progress_total_zero_extent_cex :
    (rangeProgIter 0 1 z0Vox 0).progressTotal = 0 ∧
    (rangeProgIter 0 1 z0Vox 1).base.ok = false ∧
    (rangeProgIter 0 1 z0Vox 1).progressCount = 1 := by
  decide

/-- C6 (amended): the progress decorator is purely observational — its base
run equals the undecorated cursor after every number of advances, each
advance performs exactly one progress increment, and the precomputed total is
the product of the extents of the selected axes; when every selected extent
is positive the counter stays at or below the total throughout the iteration
and reaches it exactly at Exhausted (with a zero extent the counter instead
exceeds the zero total by one, as the underlying cursor still iterates). -/
theorem progress_decorator (axis_from axis_to : Nat) (vox : Views) (n : Nat) :
    (rangeProgIter axis_from axis_to vox n).base = rangeIter axis_from axis_to vox n ∧
    (rangeProgIter axis_from axis_to vox n).progressCount = n ∧
    (rangeProgIter axis_from axis_to vox (n + 1)).progressCount =
      (rangeProgIter axis_from axis_to vox n).progressCount + 1 ∧
    (rangeProgIter axis_from axis_to vox n).progressTotal =
      voxel_count vox.1 axis_from axis_to ∧
    (axis_from < resolveTo axis_to vox →
      (∀ a ∈ rangeAxes axis_from axis_to vox, 0 < vox.1.size a) →
      (n ≤ (extentsOf (rangeAxes axis_from axis_to vox) vox).prod →
        ((rangeProgIter axis_from axis_to vox n).progressCount : Int) ≤
          (rangeProgIter axis_from axis_to vox n).progressTotal) ∧
      (rangeProgIter axis_from axis_to vox
        (extentsOf (rangeAxes axis_from axis_to vox) vox).prod).base.ok = false ∧
      ((rangeProgIter axis_from axis_to vox
          (extentsOf (rangeAxes axis_from axis_to vox) vox).prod).progressCount : Int) =
        (rangeProgIter axis_from axis_to vox
          (extentsOf (rangeAxes axis_from axis_to vox) vox).prod).progressTotal) := by
  refine ⟨rangeProgIter_base axis_from axis_to vox n,
    rangeProgIter_count axis_from axis_to vox n, ?_, rangeProgIter_total axis_from axis_to vox n,
    fun hlt hpos => ⟨fun hn => ?_, ?_, ?_⟩⟩
  · rw [rangeProgIter_count, rangeProgIter_count]
  · rw [rangeProgIter_count, rangeProgIter_total, voxel_count_eq_prod axis_from axis_to vox hpos]
    exact_mod_cast hn
  · rw [rangeProgIter_base]
    exact (rangeIter_exhaust axis_from axis_to vox hlt hpos).2
  · rw [rangeProgIter_count, rangeProgIter_total,
      voxel_count_eq_prod axis_from axis_to vox hpos]

/-- C6 witness: extents 4 and 5 give a progress total of 20, which the
counter reaches exactly when the cursor exhausts after 20 advances. -/
theorem progress_decorator_witness :
    (0 < resolveTo 2 pVox ∧
      ∀ a ∈ rangeAxes 0 2 pVox, 0 < pVox.1.size a) ∧
    (rangeProgIter 0 2 pVox 0).progressTotal = 20 ∧
    (rangeProgIter 0 2 pVox 20).base.ok = false ∧
    ((rangeProgIter 0 2 pVox 20).progressCount : Int) =
      (rangeProgIter 0 2 pVox 20).progressTotal := by
  have h := (progress_decorator 0 2 pVox 20).2.2.2.2
    (by decide) (by decide)
  have hN : (extentsOf (rangeAxes 0 2 pVox) pVox).prod
      = 20 := by decide
  rw [hN] at h
  exact ⟨⟨by decide, by decide⟩, by decide, h.2.1, h.2.2⟩

/-- C4 counterexample: two views disagreeing on the extent of the selected
axis (first view extent 2, second view extent 1) do not make construction
fail — the dynamic cursor is built Live, iterates for the first view's 2
steps, and at its second Live step has silently pushed the second view to
position 1, which is outside that view's extent. -/
theorem mismatched_extents_cex :
    (mmVox.1.size 0 = 2 ∧
      ∀ w ∈ mmVox.2, w.size 0 = 1) ∧
    (LoopAlongDynamicAxes.Run.init [0] mmVox).ok = true ∧
    (dynIter [0] mmVox 1).ok = true ∧
    (∀ w ∈ (dynIter [0] mmVox 1).vox.2,
      w.index 0 = 1 ∧ ¬ (w.index 0 < w.size 0)) ∧
    (dynIter [0] mmVox 2).ok = false := by
  decide

/-- C4 (amended): the cursor constructors perform no validation at all — for
any axis list and any view tuple (matching extents or not) the static,
dynamic and range constructors produce a Live cursor; with distinct axes and
positive first-view extents the cursor then iterates for exactly the
first view's product of extents, forcing every other view to the same
positions on the selected axes regardless of those views' own extents.
Empty axis lists and out-of-range axis identifiers are likewise unchecked
preconditions (undefined behaviour in the source, not a descriptive fault). -/
theorem unchecked_preconditions (axes : List Nat) (vox : Views) :
    (LoopAlongDynamicAxes.Run.init axes vox).ok = true ∧
    (LoopAlongStaticAxes.Run.init axes vox).ok = true ∧
    (∀ axis_from axis_to : Nat,
      (LoopAlongAxisRange.Run.init axis_from axis_to vox).ok = true) ∧
    (axes ≠ [] → axes.Nodup → (∀ a ∈ axes, 0 < vox.1.size a) →
      ∀ n, n < (extentsOf axes vox).prod → ∀ a, a ∈ axes →
        (dynIter axes vox n).ok = true ∧ AgreeOn (dynIter axes vox n).vox a) := by
  refine ⟨rfl, rfl, fun _ _ => rfl, fun hne hnd hpos n hn a ha => ?_⟩
  exact ⟨(dynIter_spec axes vox hne hnd hpos n hn).1, dynIter_agree axes vox hne a ha n⟩

/-- C4 witness: the mismatched pair (extents 2 vs 1 on axis 0) constructs a
Live dynamic cursor which at Live step 1 holds position 1 on both views. -/
theorem unchecked_preconditions_witness :
    (LoopAlongDynamicAxes.Run.init [0] mmVox).ok = true ∧
    ((dynIter [0] mmVox 1).ok = true ∧
      AgreeOn (dynIter [0] mmVox 1).vox 0) := by
  refine ⟨(unchecked_preconditions [0] mmVox).1, ?_⟩
  exact (unchecked_preconditions [0] mmVox).2.2.2
    (by decide) (by decide) (by decide) 1 (by decide) 0 (by decide)
